import Mathlib

/-!
A verification development for the SageRender pipeline builder.

The definitions below are shallow embeddings of the Python source:

  - sagerender/utilities/common.py   (env_vars_constructor)
  - sagerender/defaults.py           (prefix constants and reserved keyword sets)
  - sagerender/builder/step.py       (step models, discriminator)
  - sagerender/builder/pipeline.py   (PipelineBuilder)
  - sagerender/builder/blueprint.py  (PipelineBlueprint.validate)

Python dicts are embedded as association lists in insertion order; Python
exceptions are embedded as the error case of Except String; external SageMaker
constructors (resolved dynamically by package-qualified name) are embedded as
free term constructors recording the call.
-/

namespace SageRender

/-! ### Character and list-of-character helpers -/

/-- The character $ (the environment-variable sigil). -/
def dollarCh : Char := '$'

/-- The character with code 123 (an opening curly brace). -/
def lbraceCh : Char := Char.ofNat 123

/-- The character with code 125 (a closing curly brace). -/
def rbraceCh : Char := Char.ofNat 125

/-- The newline character; Python regex . does not match it. -/
def newlineCh : Char := Char.ofNat 10

/-- Locate the first occurrence of the pattern list inside a character list,
returning the part before it and the part after it. Embeds Python
str.split(pat, 1) / substring search. -/
def splitAtSub (pat : List Char) : List Char → Option (List Char × List Char)
  | [] => none
  | c :: rest =>
    if pat.isPrefixOf (c :: rest) then some ([], (c :: rest).drop pat.length)
    else (splitAtSub pat rest).map (fun pr => (c :: pr.1, pr.2))

/-- Whether the pattern occurs somewhere in the character list. -/
def containsSub (pat : List Char) (cs : List Char) : Bool :=
  (splitAtSub pat cs).isSome

/-- Embeds Python str.startswith for our string helpers. -/
def startsWithL (pat : String) (s : String) : Bool :=
  pat.toList.isPrefixOf s.toList

/-- Embeds Python argument.split(sep)[1] for a colon separator: the segment
between the first colon and the following colon (or the end). Only used on
strings that contain at least one colon. -/
def afterColonSeg (s : String) : String :=
  match splitAtSub [':'] s.toList with
  | some pr => String.mk (pr.2.takeWhile (fun c => c ≠ ':'))
  | none => s

/-! ### env_vars_constructor (sagerender/utilities/common.py)

PATTERN_ENV_VARS is the regex .*?\$\x7b(.*?)\x7d.*? ; re.findall collects, for
each non-overlapping match scanned left to right, the text between a dollar
sign + opening brace and the first closing brace after it, where the group may
not span a newline. We embed the scan as a left fold with a three-mode state
machine (outside, just saw a dollar, inside a group). When the group scan hits
a newline no match is produced there and scanning resumes; no later match can
begin before that newline because any complete match would need a closing
brace before it, which the failed scan shows is absent. -/

/-- State of the regex scan that collects ${NAME} groups. -/
inductive ScanMode where
  | out : ScanMode
  | sawDollar : ScanMode
  | inGroup : List Char → ScanMode
deriving Repr, DecidableEq

/-- One step of the group-collecting scan. -/
def scanStep : ScanMode × List (List Char) → Char → ScanMode × List (List Char)
  | (.out, gs), c => (if c = dollarCh then .sawDollar else .out, gs)
  | (.sawDollar, gs), c =>
    (if c = lbraceCh then .inGroup [] else if c = dollarCh then .sawDollar else .out, gs)
  | (.inGroup acc, gs), c =>
    if c = rbraceCh then (.out, gs ++ [acc.reverse])
    else if c = newlineCh then (.out, gs)
    else (.inGroup (c :: acc), gs)

/-- PATTERN_ENV_VARS.findall(value): every ${NAME} group in scan order. -/
def findGroups (cs : List Char) : List (List Char) :=
  (cs.foldl scanStep (ScanMode.out, [])).2

/-- Fuel-indexed core of Python str.replace(old, new): replace every
non-overlapping occurrence, scanning left to right, never rescanning
replacement text. The fuel only bounds recursion; it is immaterial whenever it
is at least the length of the scanned list. -/
def replaceAllGo (pat repl : List Char) : Nat → List Char → List Char
  | _, [] => []
  | 0, cs => cs
  | Nat.succ fuel, c :: rest =>
    if pat.isPrefixOf (c :: rest) ∧ pat ≠ [] then
      repl ++ replaceAllGo pat repl fuel ((c :: rest).drop pat.length)
    else
      c :: replaceAllGo pat repl fuel rest

/-- Python value.replace(old, new) on character lists. -/
def replaceAll (pat repl cs : List Char) : List Char :=
  replaceAllGo pat repl cs.length cs

/-- The literal text of the token ${g}. -/
def tokenOf (g : List Char) : List Char :=
  dollarCh :: lbraceCh :: (g ++ [rbraceCh])

/-- env_vars_constructor on character lists: for each group found by the
pattern, replace the token ${group} by os.environ.get(group, group) - the
environment value when the variable is set and the bare group text when it is
absent. The process environment is modelled as a partial map. -/
def envVarsResolve (env : String → Option String) (cs : List Char) : List Char :=
  (findGroups cs).foldl
    (fun v g => replaceAll (tokenOf g) ((env (String.mk g)).getD (String.mk g)).toList v)
    cs

/-- env_vars_constructor(loader, node): the scalar text of the node with all
embedded environment-variable tokens processed. -/
def envVarsConstructor (env : String → Option String) (value : String) : String :=
  String.mk (envVarsResolve env value.toList)

/-! ### The configuration / runtime value universe

Raw YAML configuration trees are maps, sequences and scalars. During
resolution the tree additionally carries runtime objects: parameter handles,
execution-variable constants, property-file handles, lazy step-property
accessors, enum constants, objects built by dynamically resolved constructors,
and built pipeline steps. External SageMaker constructors are free term
constructors here: the core never inspects the objects they return. -/

inductive RVal where
  | vnull : RVal
  | vbool : Bool → RVal
  | vint : Int → RVal
  | vstr : String → RVal
  | vlist : List RVal → RVal
  | vmap : List (String × RVal) → RVal
  | execVarObj : String → RVal
  | enumObj : String → RVal
  | propsObj : String → String → RVal
  | factoryObj : String → List (String × RVal) → RVal
  | extCallObj : String → List (String × RVal) → RVal
  | stepObj : String → String → List (String × RVal) → RVal
deriving Repr

/-! ### Association-list embedding of Python dict operations -/

/-- Python d.get(k) / d[k] lookup: the first entry with the given key. -/
def lookupEntry (es : List (String × RVal)) (k : String) : Option RVal :=
  match es with
  | [] => none
  | (k', v) :: rest => if k' = k then some v else lookupEntry rest k

/-- Python d[k] = v: replace the value in place when the key exists, append
otherwise (dicts preserve insertion order). -/
def setEntry (es : List (String × RVal)) (k : String) (v : RVal) : List (String × RVal) :=
  match es with
  | [] => [(k, v)]
  | (k', v') :: rest => if k' = k then (k, v) :: rest else (k', v') :: setEntry rest k v

/-- Python d.pop(k): remove the first entry with the given key. -/
def removeEntry (es : List (String × RVal)) (k : String) : List (String × RVal) :=
  match es with
  | [] => []
  | (k', v') :: rest => if k' = k then rest else (k', v') :: removeEntry rest k

/-- Whether a key is present in the map. -/
def hasKey (es : List (String × RVal)) (k : String) : Bool :=
  (lookupEntry es k).isSome

/-- Python d.update(other): set every entry of other in order. -/
def updateEntries (es other : List (String × RVal)) : List (String × RVal) :=
  other.foldl (fun acc p => setEntry acc p.1 p.2) es

/-! ### Constants (sagerender/defaults.py) -/

/-- PARAMETER_PREFIX. -/
def paramPfx : String := "param:"

/-- EXECUTION_VARIABLE_PREFIX. -/
def execPfx : String := "exec:"

/-- PROPERTY_FILE_PREFIX. -/
def propFilePfx : String := "propertyFile:"

/-- PROPERTIES_IDENTIFIER. -/
def propsIdent : String := ".properties."

/-- EXECUTION_VARIABLES_CLASS_PATH. -/
def execVarsClassPath : String := "sagemaker.workflow.execution_variables:ExecutionVariables"

/-- FACTORY_FUNCTION. -/
def factoryFunctionKey : String := "factory_function"

/-- FACTORY_ENUM. -/
def factoryEnumKey : String := "factory_enum"

/-- RESERVED_STEP_KEYWORDS. -/
def reservedStepKeywords : List String :=
  ["role", "sagemaker_session", "security_group_ids", "subnets"]

/-- The reserved top-level pipeline configuration keys skipped by
PipelineBuilder.add_steps. -/
def reservedTopKeys : List String :=
  ["name", "parameters", "max_parallel_execution_steps", "property_files",
   "use_custom_job_prefix", "pipeline_experiment_config"]

/-! ### PipelineBuilder state (sagerender/builder/pipeline.py) -/

/-- The pipeline object assembled by PipelineBuilder.build, recording the
arguments of the external Pipeline constructor. -/
structure PipelineObj where
  pname : Option String
  pparameters : List RVal
  psteps : List RVal
  psession : RVal
deriving Repr

/-- The mutable state of a PipelineBuilder. -/
structure Builder where
  name : Option String := none
  security_group_ids : List RVal := []
  subnets : List RVal := []
  parameters : List (String × RVal) := []
  property_files : List (String × RVal) := []
  pipeline : Option PipelineObj := none
  role_arn : RVal := .vnull
  sagemaker_session : RVal := .vnull
  max_parallel_execution_steps : Option Int := none
  steps : List (String × RVal) := []
  tags : List RVal := []
  use_custom_job_prefix : Bool := false
deriving Repr

/-- PipelineBuilder._replace_argument. Strings carrying the param:, exec: or
propertyFile: markers are replaced by the corresponding handle; strings
containing the .properties. infix become a lazy step-property accessor after a
live lookup of the step name (the eval in the source evaluates the step-table
subscript first, so an absent step raises before anything else); every other
value is returned unchanged. Python KeyError / AttributeError become the error
case. The dynamic getattr on the external ExecutionVariables class is embedded
as the free constructor execVarObj. -/
def replaceArgument (b : Builder) (argument : RVal) : Except String RVal :=
  match argument with
  | .vstr s =>
    if startsWithL paramPfx s then
      match lookupEntry b.parameters (afterColonSeg s) with
      | some v => .ok v
      | none => .error ("KeyError: " ++ afterColonSeg s)
    else if startsWithL execPfx s then
      .ok (.execVarObj (execVarsClassPath ++ ":" ++ afterColonSeg s))
    else if startsWithL propFilePfx s then
      match lookupEntry b.property_files (afterColonSeg s) with
      | some v => .ok v
      | none => .error ("KeyError: " ++ afterColonSeg s)
    else
      match splitAtSub propsIdent.toList s.toList with
      | some pr =>
        let stepName := String.mk pr.1
        match lookupEntry b.steps stepName with
        | some _ => .ok (.propsObj stepName (String.mk pr.2))
        | none => .error ("KeyError: " ++ stepName)
      | none => .ok argument
  | _ => .ok argument

/-! ### PipelineBuilder._replace_step_arguments

The source iterates over the keys of a dict in insertion order, resolving each
value in place, with two early returns: a factory_function key turns the whole
dict into a constructor call, and a factory_enum key turns it into an enum
lookup. We fold over the entries carrying the already-processed front of the
dict. _replace_factory_function(**arguments) binds the dict onto the parameters
(factory_function, kwargs), so the dict must hold exactly those two keys; when
kwargs precedes factory_function in insertion order its value has already been
resolved in place before the factory call, and the second resolution pass the
source then performs is the identity on an already-resolved tree, so the model
elides it. Dynamic constructor and enum resolution are embedded as the free
constructors factoryObj and enumObj. -/

mutual

/-- The key-iteration loop of _replace_step_arguments: done is the processed
front of the dict, todo the remaining entries. -/
def goRSA (b : Builder) (done todo : List (String × RVal)) : Except String RVal :=
  match todo with
  | [] => .ok (.vmap done)
  | (k, v) :: rest =>
    if k = factoryFunctionKey then
      match done, rest with
      | [], [(k2, v2)] =>
        if k2 = "kwargs" then
          match v, v2 with
          | .vstr f, .vmap kw =>
            Except.bind (goRSA b [] kw) (fun r =>
              match r with
              | .vmap es => .ok (.factoryObj f es)
              | _ => .error "TypeError: argument after ** must be a mapping")
          | _, _ => .error "TypeError: factory_function resolution failed"
        else .error "TypeError: unexpected keyword argument"
      | [(k2, v2)], [] =>
        if k2 = "kwargs" then
          match v, v2 with
          | .vstr f, .vmap es => .ok (.factoryObj f es)
          | _, _ => .error "TypeError: factory_function resolution failed"
        else .error "TypeError: unexpected keyword argument"
      | _, _ => .error "TypeError: factory_function takes exactly two arguments"
    else if k = factoryEnumKey then
      match v with
      | .vstr s => .ok (.enumObj s)
      | _ => .error "AttributeError: rsplit"
    else
      match v with
      | .vmap es =>
        Except.bind (goRSA b [] es) (fun r => goRSA b (done ++ [(k, r)]) rest)
      | .vlist xs =>
        Except.bind (goList b xs) (fun ys => goRSA b (done ++ [(k, .vlist ys)]) rest)
      | .vstr s =>
        Except.bind (replaceArgument b (.vstr s)) (fun r => goRSA b (done ++ [(k, r)]) rest)
      | other => goRSA b (done ++ [(k, other)]) rest
termination_by sizeOf todo

/-- The list-element loop of _replace_step_arguments: a dict element is
resolved as a tree, any other element through _replace_argument. -/
def goList (b : Builder) (xs : List RVal) : Except String (List RVal) :=
  match xs with
  | [] => .ok []
  | x :: rest =>
    Except.bind
      (match x with
       | .vmap es => goRSA b [] es
       | other => replaceArgument b other)
      (fun y => Except.bind (goList b rest) (fun ys => .ok (y :: ys)))
termination_by sizeOf xs

end

/-- PipelineBuilder._replace_step_arguments. -/
def replaceStepArguments (b : Builder) (args : List (String × RVal)) : Except String RVal :=
  goRSA b [] args

/-- PipelineBuilder._replace_with_step_collection: pop each listed step name
from the live step table, returning the removed step objects together with the
shrunken table. A name absent from the table raises KeyError. A collection
entry that is not a string can never be a key of the table and raises too. -/
def replaceWithStepCollection (steps : List (String × RVal)) (coll : List RVal) :
    Except String (List RVal × List (String × RVal)) :=
  match coll with
  | [] => .ok ([], steps)
  | x :: rest =>
    match x with
    | .vstr n =>
      match lookupEntry steps n with
      | some s => do
        let pr ← replaceWithStepCollection (removeEntry steps n) rest
        .ok (s :: pr.1, pr.2)
      | none => .error ("KeyError: " ++ n)
    | _ => .error "KeyError: step collection entries must be step names"

/-! ### Step discriminator and step models (sagerender/builder/step.py) -/

/-- The closed step_types set of get_discriminator_value, in source order. -/
def stepTypesList : List String :=
  ["automl_kwargs", "check_job_config_kwargs", "conditions", "emr_step_config_kwargs",
   "error_message", "estimator_kwargs", "lambda_func_kwargs", "model_kwargs",
   "notebook_job_kwargs", "processor_kwargs", "sqs_queue_url", "transformer_kwargs",
   "tuner_kwargs"]

/-- get_discriminator_value on the top-level key set of a step configuration:
exactly one matching discriminator key selects that key; exactly the pair
estimator_kwargs + tuner_kwargs selects tuner_kwargs; anything else raises
ValueError. -/
def getDiscriminatorValue (keys : List String) : Except String String :=
  match stepTypesList.filter (fun k => keys.contains k) with
  | [k] => .ok k
  | m =>
    if m.length = 2 ∧ m.contains "estimator_kwargs" ∧ m.contains "tuner_kwargs" then
      .ok "tuner_kwargs"
    else
      .error "ValueError: Only one of the step type keys must be provided."

/-! Pydantic-style field extraction. A required field must be present and
conform to its annotation; an Optional field may be absent (taking its
default) or null; pydantic v2 gives no implicit None default, so fields
annotated Any without a default are still required. -/

/-- A required str field. -/
def requireStr (kw : List (String × RVal)) (k : String) : Except String String :=
  match lookupEntry kw k with
  | some (.vstr s) => .ok s
  | some _ => .error ("ValidationError: " ++ k ++ " must be a string")
  | none => .error ("ValidationError: " ++ k ++ " field required")

/-- A required Dict[str, Any] field. -/
def requireMap (kw : List (String × RVal)) (k : String) : Except String (List (String × RVal)) :=
  match lookupEntry kw k with
  | some (.vmap es) => .ok es
  | some _ => .error ("ValidationError: " ++ k ++ " must be a mapping")
  | none => .error ("ValidationError: " ++ k ++ " field required")

/-- A required List[Any] field. -/
def requireList (kw : List (String × RVal)) (k : String) : Except String (List RVal) :=
  match lookupEntry kw k with
  | some (.vlist xs) => .ok xs
  | some _ => .error ("ValidationError: " ++ k ++ " must be a list")
  | none => .error ("ValidationError: " ++ k ++ " field required")

/-- A required field annotated Any. -/
def requireAny (kw : List (String × RVal)) (k : String) : Except String RVal :=
  match lookupEntry kw k with
  | some v => .ok v
  | none => .error ("ValidationError: " ++ k ++ " field required")

/-- An Optional[str] field with a string default. -/
def optStrD (kw : List (String × RVal)) (k : String) (dflt : String) :
    Except String (Option String) :=
  match lookupEntry kw k with
  | none => .ok (some dflt)
  | some .vnull => .ok none
  | some (.vstr s) => .ok (some s)
  | some _ => .error ("ValidationError: " ++ k ++ " must be a string or null")

/-- An Optional[str] = None field. -/
def optStr (kw : List (String × RVal)) (k : String) : Except String (Option String) :=
  match lookupEntry kw k with
  | none => .ok none
  | some .vnull => .ok none
  | some (.vstr s) => .ok (some s)
  | some _ => .error ("ValidationError: " ++ k ++ " must be a string or null")

/-- An Optional[List[...]] = None field. -/
def optList (kw : List (String × RVal)) (k : String) : Except String (Option (List RVal)) :=
  match lookupEntry kw k with
  | none => .ok none
  | some .vnull => .ok none
  | some (.vlist xs) => .ok (some xs)
  | some _ => .error ("ValidationError: " ++ k ++ " must be a list or null")

/-- An Optional[Dict[...]] = None field. -/
def optMap (kw : List (String × RVal)) (k : String) :
    Except String (Option (List (String × RVal))) :=
  match lookupEntry kw k with
  | none => .ok none
  | some .vnull => .ok none
  | some (.vmap es) => .ok (some es)
  | some _ => .error ("ValidationError: " ++ k ++ " must be a mapping or null")

/-- ModelStepModel.retry_policies: Union[Dict, List, None]. -/
def optMapOrList (kw : List (String × RVal)) (k : String) : Except String RVal :=
  match lookupEntry kw k with
  | none => .ok .vnull
  | some .vnull => .ok .vnull
  | some (.vlist xs) => .ok (.vlist xs)
  | some (.vmap es) => .ok (.vmap es)
  | some _ => .error ("ValidationError: " ++ k ++ " must be a mapping, list or null")

/-- An Optional[Any] = None field: any value, absent gives None. -/
def optAny (kw : List (String × RVal)) (k : String) : RVal :=
  (lookupEntry kw k).getD .vnull

/-- Reify an optional list value the way it is handed to a step constructor. -/
def optListR : Option (List RVal) → RVal
  | none => .vnull
  | some xs => .vlist xs

/-- Reify an optional string the way it is handed onward. -/
def optStrR : Option String → RVal
  | none => .vnull
  | some s => .vstr s

/-- getattr(self, k) for an extra field such as the injected role or session:
absent raises AttributeError. -/
def getAttr (kw : List (String × RVal)) (k : String) : Except String RVal :=
  match lookupEntry kw k with
  | some v => .ok v
  | none => .error ("AttributeError: " ++ k)

/-- The declared fields shared by every step model (BaseStepModel). -/
def baseFieldNames : List String :=
  ["name", "depends_on", "cache_config", "retry_policies"]

/-- BaseStepModel.kwargs: the extra fields minus the declared model fields
minus RESERVED_STEP_KEYWORDS, in insertion order. -/
def extraKwargs (kw : List (String × RVal)) (fields : List String) : List (String × RVal) :=
  kw.filter (fun p => !(fields.contains p.1) && !(reservedStepKeywords.contains p.1))

/-- resolve_package_name: the name must be a package-qualified 'package:name'
string; None (from an explicit null) has no split attribute. -/
def resolvePkg (s : Option String) : Except String String :=
  match s with
  | some s => if containsSub [':'] s.toList then .ok s else .error "ValueError: resolve_package_name"
  | none => .error "AttributeError: split"

/-- StepModel.build wraps any exception from the variant build into a
SagemakerStepException naming the step. -/
def wrapBuild (name : String) (e : Except String RVal) : Except String RVal :=
  match e with
  | .ok v => .ok v
  | .error msg => .error ("SagemakerStepException: Error when building step: " ++ name ++ ". Error: " ++ msg)

/-- AutoMLStepModel: validate then build AutoMLStep. -/
def autoMLStepVB (kw : List (String × RVal)) : Except String RVal := do
  let name ← requireStr kw "name"
  let dependsOn ← optList kw "depends_on"
  let retry ← optList kw "retry_policies"
  let automl ← optStrD kw "automl" "sagemaker.automl.automl:AutoML"
  let automlKwargs ← requireMap kw "automl_kwargs"
  let fitKwargs ← requireMap kw "fit_kwargs"
  wrapBuild name (do
    let role ← getAttr kw "role"
    let session ← getAttr kw "sagemaker_session"
    let sgids ← getAttr kw "security_group_ids"
    let subnets ← getAttr kw "subnets"
    let ctor ← resolvePkg automl
    let processor := RVal.extCallObj ctor
      ([("role", role), ("sagemaker_session", session),
        ("vpc_config", .vmap [("SecurityGroupIds", sgids), ("Subnets", subnets)])] ++ automlKwargs)
    .ok (.stepObj "AutoMLStep" name
      ([("step_args", .extCallObj "fit" (("self", processor) :: fitKwargs)),
        ("cache_config", optAny kw "cache_config"),
        ("depends_on", optListR dependsOn),
        ("retry_policies", optListR retry)] ++
       extraKwargs kw (baseFieldNames ++ ["automl", "automl_kwargs", "fit_kwargs"]))))

/-- CallbackStepModel: validate then build CallbackStep (no extra kwargs are
passed through by this variant). -/
def callbackStepVB (kw : List (String × RVal)) : Except String RVal := do
  let name ← requireStr kw "name"
  let dependsOn ← optList kw "depends_on"
  let _ ← optList kw "retry_policies"
  let sqsQueueUrl ← requireStr kw "sqs_queue_url"
  let inputs ← requireMap kw "inputs"
  let outputs ← requireList kw "outputs"
  wrapBuild name
    (.ok (.stepObj "CallbackStep" name
      [("sqs_queue_url", .vstr sqsQueueUrl), ("inputs", .vmap inputs),
       ("outputs", .vlist outputs), ("cache_config", optAny kw "cache_config"),
       ("depends_on", optListR dependsOn)]))

/-- CheckStepStepModel: validate (with the clarify/quality mutually exclusive
group) then build a ClarifyCheckStep or QualityCheckStep. -/
def checkStepVB (kw : List (String × RVal)) : Except String RVal := do
  let name ← requireStr kw "name"
  let dependsOn ← optList kw "depends_on"
  let _ ← optList kw "retry_policies"
  let checkJobKwargs ← requireMap kw "check_job_config_kwargs"
  let clarify := lookupEntry kw "clarify_check_config"
  let quality := lookupEntry kw "quality_check_config"
  let clarifyGiven := match clarify with | some .vnull => false | some _ => true | none => false
  let qualityGiven := match quality with | some .vnull => false | some _ => true | none => false
  if !(xor clarifyGiven qualityGiven) then
    .error "ValidationError: Either specify clarify_check_config or quality_check_config."
  else
    wrapBuild name (do
      let role ← getAttr kw "role"
      let session ← getAttr kw "sagemaker_session"
      let sgids ← getAttr kw "security_group_ids"
      let subnets ← getAttr kw "subnets"
      let checkJobConfig := RVal.extCallObj "sagemaker.workflow.check_job_config:CheckJobConfig"
        ([("role", role), ("sagemaker_session", session),
          ("network_config", .extCallObj "sagemaker.network:NetworkConfig"
            [("security_group_ids", sgids), ("subnets", subnets)])] ++ checkJobKwargs)
      let funcName := if clarifyGiven then "sagemaker.workflow.clarify_check_step:ClarifyCheckStep"
                      else "sagemaker.workflow.quality_check_step:QualityCheckStep"
      let cfgKey := if clarifyGiven then "clarify_check_config" else "quality_check_config"
      let cfgVal := if clarifyGiven then (clarify.getD .vnull) else (quality.getD .vnull)
      .ok (.stepObj funcName name
        ([("check_job_config", checkJobConfig), ("cache_config", optAny kw "cache_config"),
          ("depends_on", optListR dependsOn)] ++
         extraKwargs kw (baseFieldNames ++
           ["check_job_config_kwargs", "clarify_check_config", "quality_check_config"]) ++
         [(cfgKey, cfgVal)])))

/-- ConditionStepModel: validate then build ConditionStep embedding the branch
member step objects. -/
def conditionStepVB (kw : List (String × RVal)) : Except String RVal := do
  let name ← requireStr kw "name"
  let dependsOn ← optList kw "depends_on"
  let _ ← optList kw "retry_policies"
  let conditions ← requireList kw "conditions"
  let ifSteps ← requireList kw "if_steps"
  let elseSteps ← requireList kw "else_steps"
  wrapBuild name
    (.ok (.stepObj "ConditionStep" name
      ([("conditions", .vlist conditions), ("if_steps", .vlist ifSteps),
        ("else_steps", .vlist elseSteps), ("depends_on", optListR dependsOn)] ++
       extraKwargs kw (baseFieldNames ++ ["conditions", "if_steps", "else_steps"]))))

/-- EMRStepModel: validate (with the cluster_id/cluster_config mutually
exclusive group) then build EMRStep. -/
def emrStepVB (kw : List (String × RVal)) : Except String RVal := do
  let name ← requireStr kw "name"
  let dependsOn ← optList kw "depends_on"
  let _ ← optList kw "retry_policies"
  let emrCfgKwargs ← requireMap kw "emr_step_config_kwargs"
  let clusterId ← optStr kw "cluster_id"
  let clusterConfig ← optMap kw "cluster_config"
  let execRoleArn ← optStr kw "execution_role_arn"
  let displayName ← requireStr kw "display_name"
  let description ← requireStr kw "description"
  if !(xor clusterId.isSome clusterConfig.isSome) then
    .error "ValidationError: Either specify cluster_id or cluster_config."
  else
    wrapBuild name (do
      let emrStepConfig := RVal.extCallObj "sagemaker.workflow.emr_step:EMRStepConfig" emrCfgKwargs
      let execRole ←
        if clusterId.isSome then do
          let role ← getAttr kw "role"
          .ok (match execRoleArn with
               | some s => if s = "" then role else .vstr s
               | none => role)
        else .ok (optStrR execRoleArn)
      .ok (.stepObj "EMRStep" name
        [("cluster_id", optStrR clusterId), ("step_config", emrStepConfig),
         ("cluster_config", match clusterConfig with | some es => .vmap es | none => .vnull),
         ("execution_role_arn", execRole), ("cache_config", optAny kw "cache_config"),
         ("depends_on", optListR dependsOn), ("display_name", .vstr displayName),
         ("description", .vstr description)]))

/-- FailStepModel: validate then build FailStep. -/
def failStepVB (kw : List (String × RVal)) : Except String RVal := do
  let name ← requireStr kw "name"
  let dependsOn ← optList kw "depends_on"
  let _ ← optList kw "retry_policies"
  let errorMessage ← requireAny kw "error_message"
  wrapBuild name
    (.ok (.stepObj "FailStep" name
      ([("error_message", errorMessage), ("depends_on", optListR dependsOn)] ++
       extraKwargs kw (baseFieldNames ++ ["error_message"]))))

/-- LambdaStepModel: validate then build LambdaStep, defaulting the Lambda
execution role to the pipeline role when it is not configured. -/
def lambdaStepVB (kw : List (String × RVal)) : Except String RVal := do
  let name ← requireStr kw "name"
  let dependsOn ← optList kw "depends_on"
  let _ ← optList kw "retry_policies"
  let lambdaFunc ← optStrD kw "lambda_func" "sagemaker.lambda_helper:Lambda"
  let lambdaFuncKwargs ← requireMap kw "lambda_func_kwargs"
  let inputs ← optMap kw "inputs"
  let outputs ← optList kw "outputs"
  wrapBuild name (do
    let role ← getAttr kw "role"
    let session ← getAttr kw "sagemaker_session"
    let sgids ← getAttr kw "security_group_ids"
    let subnets ← getAttr kw "subnets"
    let lfk := if hasKey lambdaFuncKwargs "execution_role_arn" then lambdaFuncKwargs
               else lambdaFuncKwargs ++ [("execution_role_arn", role)]
    let ctor ← resolvePkg lambdaFunc
    let lambdaObj := RVal.extCallObj ctor
      ([("session", session),
        ("vpc_config", .vmap [("SecurityGroupIds", sgids), ("Subnets", subnets)])] ++ lfk)
    .ok (.stepObj "LambdaStep" name
      ([("lambda_func", lambdaObj),
        ("inputs", match inputs with | some es => .vmap es | none => .vnull),
        ("outputs", optListR outputs), ("cache_config", optAny kw "cache_config"),
        ("depends_on", optListR dependsOn)] ++
       extraKwargs kw (baseFieldNames ++ ["lambda_func", "lambda_func_kwargs", "inputs", "outputs"]))))

/-- The validated fields of a ModelStepModel. -/
structure ModelStepFields where
  mname : String
  mdependsOn : Option (List RVal)
  mretry : RVal
  mmodel : Option String
  mmodelKwargs : List (String × RVal)
  mcreateKwargs : Option (List (String × RVal))
  mregisterKwargs : Option (List (String × RVal))
deriving Repr

/-- ModelStepModel field validation followed by the mutually_exclusive
model_validator: exactly one of create_model_kwargs / register_model_kwargs
must be given (a null value counts as not given), else ValueError. -/
def modelStepModelValidate (kw : List (String × RVal)) : Except String ModelStepFields := do
  let name ← requireStr kw "name"
  let dependsOn ← optList kw "depends_on"
  let retry ← optMapOrList kw "retry_policies"
  let model ← optStrD kw "model" "sagemaker.model:Model"
  let modelKwargs ← requireMap kw "model_kwargs"
  let createKwargs ← optMap kw "create_model_kwargs"
  let registerKwargs ← optMap kw "register_model_kwargs"
  if !(xor createKwargs.isSome registerKwargs.isSome) then
    .error "ValidationError: Either specify create_model_kwargs or register_model_kwargs."
  else
    .ok { mname := name, mdependsOn := dependsOn, mretry := retry, mmodel := model,
          mmodelKwargs := modelKwargs, mcreateKwargs := createKwargs,
          mregisterKwargs := registerKwargs }

/-- ModelStepModel.build: construct the model helper, invoke create or
register on it for the step arguments, and build ModelStep. -/
def modelStepBuild (kw : List (String × RVal)) (f : ModelStepFields) : Except String RVal := do
  let role ← getAttr kw "role"
  let session ← getAttr kw "sagemaker_session"
  let sgids ← getAttr kw "security_group_ids"
  let subnets ← getAttr kw "subnets"
  let ctor ← resolvePkg f.mmodel
  let model := RVal.extCallObj ctor
    ([("role", role), ("sagemaker_session", session),
      ("vpc_config", .vmap [("SecurityGroupIds", sgids), ("Subnets", subnets)])] ++ f.mmodelKwargs)
  let stepArgs ←
    match f.mcreateKwargs, f.mregisterKwargs with
    | some ck, _ => .ok (RVal.extCallObj "create" (("self", model) :: ck))
    | none, some rk => .ok (RVal.extCallObj "register" (("self", model) :: rk))
    | none, none => .error "RuntimeError: step_args cannot be instantiated."
  .ok (.stepObj "ModelStep" f.mname
    ([("step_args", stepArgs), ("depends_on", optListR f.mdependsOn),
      ("retry_policies", f.mretry)] ++
     extraKwargs kw (baseFieldNames ++
       ["model", "model_kwargs", "create_model_kwargs", "register_model_kwargs"])))

/-- The external helper constructions and action-method invocations performed
by the model-step path: empty when validation fails, since StepModel only
calls build on a validated model. -/
def modelStepExternalCalls (kw : List (String × RVal)) : List String :=
  match modelStepModelValidate kw with
  | .error _ => []
  | .ok f =>
    [(f.mmodel.getD "None"),
     if f.mcreateKwargs.isSome then "create" else "register"]

/-- ModelStepModel: validate then build. -/
def modelStepVB (kw : List (String × RVal)) : Except String RVal := do
  let f ← modelStepModelValidate kw
  wrapBuild f.mname (modelStepBuild kw f)

/-- NotebookJobStepModel: validate then build NotebookJobStep (the variant
passes notebook_job_kwargs through, not the generic extras). -/
def notebookJobStepVB (kw : List (String × RVal)) : Except String RVal := do
  let name ← requireStr kw "name"
  let dependsOn ← optList kw "depends_on"
  let retry ← optList kw "retry_policies"
  let notebookJobKwargs ← requireMap kw "notebook_job_kwargs"
  wrapBuild name (do
    let role ← getAttr kw "role"
    let sgids ← getAttr kw "security_group_ids"
    let subnets ← getAttr kw "subnets"
    .ok (.stepObj "NotebookJobStep" name
      ([("role", role), ("security_group_ids", sgids), ("subnets", subnets),
        ("depends_on", optListR dependsOn), ("retry_policies", optListR retry)] ++
       notebookJobKwargs)))

/-- ProcessingStepModel: validate then build ProcessingStep. -/
def processingStepVB (kw : List (String × RVal)) : Except String RVal := do
  let name ← requireStr kw "name"
  let dependsOn ← optList kw "depends_on"
  let retry ← optList kw "retry_policies"
  let processor ← optStrD kw "processor" "sagemaker.processing:Processor"
  let processorKwargs ← requireMap kw "processor_kwargs"
  let stepKwargs ← requireMap kw "step_kwargs"
  let propertyFiles ← optList kw "property_files"
  wrapBuild name (do
    let role ← getAttr kw "role"
    let session ← getAttr kw "sagemaker_session"
    let sgids ← getAttr kw "security_group_ids"
    let subnets ← getAttr kw "subnets"
    let ctor ← resolvePkg processor
    let processorObj := RVal.extCallObj ctor
      ([("role", role), ("sagemaker_session", session),
        ("network_config", .extCallObj "sagemaker.network:NetworkConfig"
          [("security_group_ids", sgids), ("subnets", subnets)])] ++ processorKwargs)
    .ok (.stepObj "ProcessingStep" name
      ([("step_args", .extCallObj "run" (("self", processorObj) :: stepKwargs)),
        ("property_files", optListR propertyFiles), ("cache_config", optAny kw "cache_config"),
        ("retry_policies", optListR retry), ("depends_on", optListR dependsOn)] ++
       extraKwargs kw (baseFieldNames ++
         ["processor", "processor_kwargs", "step_kwargs", "property_files"]))))

/-- TrainingStepModel: validate then build TrainingStep. -/
def trainingStepVB (kw : List (String × RVal)) : Except String RVal := do
  let name ← requireStr kw "name"
  let dependsOn ← optList kw "depends_on"
  let retry ← optList kw "retry_policies"
  let estimator ← optStrD kw "estimator" "sagemaker.estimator:Estimator"
  let estimatorKwargs ← requireMap kw "estimator_kwargs"
  let fitKwargs ← requireMap kw "fit_kwargs"
  wrapBuild name (do
    let role ← getAttr kw "role"
    let session ← getAttr kw "sagemaker_session"
    let sgids ← getAttr kw "security_group_ids"
    let subnets ← getAttr kw "subnets"
    let ctor ← resolvePkg estimator
    let estimatorObj := RVal.extCallObj ctor
      ([("role", role), ("sagemaker_session", session), ("security_group_ids", sgids),
        ("subnets", subnets)] ++ estimatorKwargs)
    .ok (.stepObj "TrainingStep" name
      ([("step_args", .extCallObj "fit" (("self", estimatorObj) :: fitKwargs)),
        ("cache_config", optAny kw "cache_config"), ("retry_policies", optListR retry),
        ("depends_on", optListR dependsOn)] ++
       extraKwargs kw (baseFieldNames ++ ["estimator", "estimator_kwargs", "fit_kwargs"]))))

/-- TransformStepModel: validate then build TransformStep. -/
def transformStepVB (kw : List (String × RVal)) : Except String RVal := do
  let name ← requireStr kw "name"
  let dependsOn ← optList kw "depends_on"
  let retry ← optList kw "retry_policies"
  let transformer ← optStrD kw "transformer" "sagemaker.transformer:Transformer"
  let transformerKwargs ← requireMap kw "transformer_kwargs"
  let stepKwargs ← requireMap kw "step_kwargs"
  wrapBuild name (do
    let session ← getAttr kw "sagemaker_session"
    let ctor ← resolvePkg transformer
    let transformerObj := RVal.extCallObj ctor
      (("sagemaker_session", session) :: transformerKwargs)
    .ok (.stepObj "TransformStep" name
      ([("step_args", .extCallObj "transform" (("self", transformerObj) :: stepKwargs)),
        ("cache_config", optAny kw "cache_config"), ("retry_policies", optListR retry),
        ("depends_on", optListR dependsOn)] ++
       extraKwargs kw (baseFieldNames ++ ["transformer", "transformer_kwargs", "step_kwargs"]))))

/-- TuningStepModel (extends TrainingStepModel): validate then build
TuningStep wrapping the estimator in the tuner. -/
def tuningStepVB (kw : List (String × RVal)) : Except String RVal := do
  let name ← requireStr kw "name"
  let dependsOn ← optList kw "depends_on"
  let retry ← optList kw "retry_policies"
  let estimator ← optStrD kw "estimator" "sagemaker.estimator:Estimator"
  let estimatorKwargs ← requireMap kw "estimator_kwargs"
  let fitKwargs ← requireMap kw "fit_kwargs"
  let tuner ← optStrD kw "tuner" "sagemaker.tuner:HyperparameterTuner"
  let tunerKwargs ← requireMap kw "tuner_kwargs"
  wrapBuild name (do
    let role ← getAttr kw "role"
    let session ← getAttr kw "sagemaker_session"
    let sgids ← getAttr kw "security_group_ids"
    let subnets ← getAttr kw "subnets"
    let estCtor ← resolvePkg estimator
    let estimatorObj := RVal.extCallObj estCtor
      ([("role", role), ("sagemaker_session", session), ("security_group_ids", sgids),
        ("subnets", subnets)] ++ estimatorKwargs)
    let tunerCtor ← resolvePkg tuner
    let tunerObj := RVal.extCallObj tunerCtor (("estimator", estimatorObj) :: tunerKwargs)
    .ok (.stepObj "TuningStep" name
      ([("step_args", .extCallObj "fit" (("self", tunerObj) :: fitKwargs)),
        ("cache_config", optAny kw "cache_config"), ("retry_policies", optListR retry),
        ("depends_on", optListR dependsOn)] ++
       extraKwargs kw (baseFieldNames ++
         ["estimator", "estimator_kwargs", "fit_kwargs", "tuner", "tuner_kwargs"]))))

/-- StepModel.model_validate({"step": kwargs}).build(): discriminate the
variant, validate it, and build the external step object; build-time errors
are wrapped by StepModel.build. -/
def stepModelBuild (kw : List (String × RVal)) : Except String RVal := do
  let tag ← getDiscriminatorValue (kw.map Prod.fst)
  match tag with
  | "automl_kwargs" => autoMLStepVB kw
  | "sqs_queue_url" => callbackStepVB kw
  | "check_job_config_kwargs" => checkStepVB kw
  | "conditions" => conditionStepVB kw
  | "emr_step_config_kwargs" => emrStepVB kw
  | "error_message" => failStepVB kw
  | "lambda_func_kwargs" => lambdaStepVB kw
  | "model_kwargs" => modelStepVB kw
  | "notebook_job_kwargs" => notebookJobStepVB kw
  | "processor_kwargs" => processingStepVB kw
  | "estimator_kwargs" => trainingStepVB kw
  | "transformer_kwargs" => transformStepVB kw
  | "tuner_kwargs" => tuningStepVB kw
  | _ => .error "unreachable: unknown discriminator tag"

/-! ### PipelineBuilder.add_step / add_steps -/

/-- The branch-consumption part of add_step for one of if_steps / else_steps:
when the key is present its value is the list of branch step names, each of
which is popped from the live step table, and the key is rebound to the popped
step objects. -/
def popBranch (key : String) (es steps : List (String × RVal)) :
    Except String (List (String × RVal) × List (String × RVal)) :=
  if hasKey es key then
    match lookupEntry es key with
    | some (.vlist names) => do
      let pr ← replaceWithStepCollection steps names
      .ok (setEntry es key (.vlist pr.1), pr.2)
    | _ => .error "TypeError: branch step collection is not a list"
  else .ok (es, steps)

/-- PipelineBuilder.add_step: resolve the raw configuration, inject the step
name and the builder's role / session / network context, consume branch step
names for a condition step, then validate and build the step and record it in
the step table under its name (silently replacing any previous entry with
that name, as a dict assignment does). -/
def addStep (b : Builder) (name : String) (kwargs : List (String × RVal)) :
    Except String Builder := do
  let resolved ← replaceStepArguments b kwargs
  let es ←
    match resolved with
    | .vmap es => .ok es
    | _ => .error "AttributeError: update"
  let es := updateEntries es
    [("name", (lookupEntry es "name").getD (.vstr name)),
     ("role", b.role_arn),
     ("sagemaker_session", b.sagemaker_session),
     ("security_group_ids", .vlist b.security_group_ids),
     ("subnets", .vlist b.subnets)]
  let pr1 ← popBranch "if_steps" es b.steps
  let pr2 ← popBranch "else_steps" pr1.1 pr1.2
  let step ← stepModelBuild pr2.1
  match step with
  | .stepObj variant sname args =>
    .ok { b with steps := setEntry pr2.2 sname (.stepObj variant sname args) }
  | _ => .error "unreachable: step build returned a non-step"

/-- PipelineBuilder.add_steps: walk the pipeline configuration entries in
order, skipping the reserved top-level keys, and add a step for every other
entry. -/
def addSteps (b : Builder) (cfg : List (String × RVal)) : Except String Builder :=
  match cfg with
  | [] => .ok b
  | (name, kw) :: rest =>
    if reservedTopKeys.contains name then addSteps b rest
    else
      match kw with
      | .vmap es => do
        let b' ← addStep b name es
        addSteps b' rest
      | _ => .error "AttributeError: step configuration is not a mapping"

/-- The spec's reading of step addition with no reserved-name handling at all:
every entry is treated as a step configuration. Used to state what add_steps
skips. -/
def addStepsAll (b : Builder) (cfg : List (String × RVal)) : Except String Builder :=
  match cfg with
  | [] => .ok b
  | (name, kw) :: rest =>
    match kw with
    | .vmap es => do
      let b' ← addStep b name es
      addStepsAll b' rest
    | _ => .error "AttributeError: step configuration is not a mapping"

/-! ### PipelineBuilder.build / definition / upsert / run -/

/-- PipelineBuilder.build: assemble the Pipeline object from the current
parameter and step tables and store it on the builder. -/
def buildPipeline (b : Builder) : Builder :=
  { b with pipeline := some (PipelineObj.mk b.name (b.parameters.map Prod.snd)
      (b.steps.map Prod.snd) b.sagemaker_session) }

/-- The PipelineNotFoundError message raised by definition / upsert / run. -/
def pnfMsg (b : Builder) : String :=
  "PipelineNotFoundError: Pipeline definition not found for " ++ (b.name.getD "None")

/-- PipelineBuilder.definition: fails with PipelineNotFoundError when build
was never called; otherwise the external definition call on the pipeline
object. An error produces no external call. -/
def definitionOp (b : Builder) : Except String RVal :=
  match b.pipeline with
  | none => .error (pnfMsg b)
  | some _ => .ok (.extCallObj "Pipeline.definition" [])

/-- PipelineBuilder.upsert: fails with PipelineNotFoundError when build was
never called; otherwise the external upsert call with the builder's role,
tags and parallelism configuration. -/
def upsertOp (b : Builder) : Except String RVal :=
  match b.pipeline with
  | none => .error (pnfMsg b)
  | some _ => .ok (.extCallObj "Pipeline.upsert"
      [("role_arn", b.role_arn), ("tags", .vlist b.tags)])

/-- PipelineBuilder.run: fails with PipelineNotFoundError when build was never
called; otherwise the external start call with the given parameters. -/
def runOp (b : Builder) (parameters : RVal) : Except String RVal :=
  match b.pipeline with
  | none => .error (pnfMsg b)
  | some _ => .ok (.extCallObj "Pipeline.start" [("parameters", parameters)])

/-! ### PipelineBlueprint.validate (sagerender/builder/blueprint.py) -/

/-- Whether a configuration value is a YAML list. -/
def isVList : RVal → Bool
  | .vlist _ => true
  | _ => false

/-- One round of the required-key loop of PipelineBlueprint.validate: the key
must be present (KeyError otherwise) and hold a list (assertion otherwise);
both failures become PipelineBlueprintValidationError. -/
def checkHieraKey (config : List (String × RVal)) (k : String) : Except String Unit :=
  match lookupEntry config k with
  | none => .error ("PipelineBlueprintValidationError: " ++ k ++
      " not defined in the hiera configuration file")
  | some v =>
    if isVList v then .ok ()
    else .error ("PipelineBlueprintValidationError: " ++ k ++ " must be of type list")

/-- One round of the backend loop of PipelineBlueprint.validate: a backend
named in the backends list must have a mapping configuration containing the
datadir storage-directory key. A non-string backend entry can never index the
string-keyed configuration mapping and fails the lookup. -/
def checkBackend (config : List (String × RVal)) (x : RVal) : Except String Unit :=
  match x with
  | .vstr bname =>
    match lookupEntry config bname with
    | none => .error ("PipelineBlueprintValidationError: " ++ bname ++
        " backend not defined in the hiera configuration file")
    | some (.vmap es) =>
      if hasKey es "datadir" then .ok ()
      else .error ("PipelineBlueprintValidationError: datadir not found in " ++ bname ++
          " configuration")
    | some _ => .error ("PipelineBlueprintValidationError: " ++ bname ++
        " must be of type dict")
  | _ => .error "PipelineBlueprintValidationError: backend entry is not a configuration key"

/-- The backend loop of PipelineBlueprint.validate. -/
def checkBackends (config : List (String × RVal)) : List RVal → Except String Unit
  | [] => .ok ()
  | x :: rest => do
    checkBackend config x
    checkBackends config rest

/-- PipelineBlueprint.validate over the loaded root document: the required
keys backends, context and hierarchy must be lists, and every backend named in
backends must have a mapping configuration carrying datadir. -/
def blueprintValidate (config : List (String × RVal)) : Except String Unit := do
  checkHieraKey config "backends"
  checkHieraKey config "context"
  checkHieraKey config "hierarchy"
  match lookupEntry config "backends" with
  | some (.vlist bs) => checkBackends config bs
  | _ => .ok ()

/-! ### Predicates used by the claims -/

/-- A string carrying none of the resolution markers: not param:-, exec:- or
propertyFile:-prefixed and without the .properties. infix. _replace_argument
passes such strings through unchanged. -/
def plainString (s : String) : Bool :=
  !(startsWithL paramPfx s) && !(startsWithL execPfx s) && !(startsWithL propFilePfx s) &&
    !(containsSub propsIdent.toList s.toList)

/-- A plain step or parameter name: no colon and no dot. Such a name carries
no resolution marker and splits cleanly in front of a .properties. suffix. -/
def plainName (s : String) : Bool :=
  s.toList.all (fun c => !(c = ':') && !(c = '.'))

/-- A configuration tree built only from literal values: mappings without the
factory keys, sequences, plain strings and non-string scalars. -/
inductive LiteralOnly : RVal → Prop where
  | vnull : LiteralOnly .vnull
  | vbool (b : Bool) : LiteralOnly (.vbool b)
  | vint (n : Int) : LiteralOnly (.vint n)
  | vstr (s : String) : plainString s = true → LiteralOnly (.vstr s)
  | vlist (xs : List RVal) : (∀ x ∈ xs, LiteralOnly x) → LiteralOnly (.vlist xs)
  | vmap (es : List (String × RVal)) :
      (∀ p ∈ es, p.1 ≠ factoryFunctionKey) →
      (∀ p ∈ es, p.1 ≠ factoryEnumKey) →
      (∀ p ∈ es, LiteralOnly p.2) →
      LiteralOnly (.vmap es)

/-- A value the reference resolver maps to itself, together with the same
property for its payload when it is a mapping or a sequence. -/
def ResolvesId (b : Builder) (v : RVal) : Prop :=
  (∀ es, v = .vmap es → ∀ done, goRSA b done es = .ok (.vmap (done ++ es))) ∧
  (∀ xs, v = .vlist xs → goList b xs = .ok xs) ∧
  replaceArgument b v = .ok v

/-- Exactly one discriminator key of the closed step-type set occurs among
the top-level keys. -/
def UniqueMatch (keys : List String) (k : String) : Prop :=
  k ∈ stepTypesList ∧ keys.contains k = true ∧
    ∀ k' ∈ stepTypesList, keys.contains k' = true → k' = k

/-- The matching discriminator keys are exactly the estimator_kwargs /
tuner_kwargs pair of the tuning variant. -/
def ExactTunerPair (keys : List String) : Prop :=
  keys.contains "estimator_kwargs" = true ∧ keys.contains "tuner_kwargs" = true ∧
    ∀ k' ∈ stepTypesList, keys.contains k' = true →
      k' = "estimator_kwargs" ∨ k' = "tuner_kwargs"

/-- The configured value of an optional group member counts as given when the
key is present with a non-null value. -/
def givenKey (kw : List (String × RVal)) (k : String) : Bool :=
  match lookupEntry kw k with
  | none => false
  | some .vnull => false
  | some _ => true

/-- A model-step configuration whose fields other than the mutually exclusive
group conform to the ModelStepModel annotations. -/
def ModelCfgWellTyped (kw : List (String × RVal)) : Bool :=
  (match lookupEntry kw "name" with | some (.vstr _) => true | _ => false) &&
  (match lookupEntry kw "model_kwargs" with | some (.vmap _) => true | _ => false) &&
  (match lookupEntry kw "depends_on" with
   | none => true | some .vnull => true | some (.vlist _) => true | _ => false) &&
  (match lookupEntry kw "retry_policies" with
   | none => true | some .vnull => true | some (.vlist _) => true
   | some (.vmap _) => true | _ => false) &&
  (match lookupEntry kw "model" with
   | none => true | some .vnull => true | some (.vstr _) => true | _ => false) &&
  (match lookupEntry kw "create_model_kwargs" with
   | none => true | some .vnull => true | some (.vmap _) => true | _ => false) &&
  (match lookupEntry kw "register_model_kwargs" with
   | none => true | some .vnull => true | some (.vmap _) => true | _ => false)

/-- The structural well-formedness PipelineBlueprint.validate checks: the
three required keys hold lists and every named backend has a mapping
configuration carrying datadir. -/
def GoodBlueprint (config : List (String × RVal)) : Prop :=
  (∀ k ∈ ["backends", "context", "hierarchy"],
     ∃ xs, lookupEntry config k = some (.vlist xs)) ∧
  (∀ bs, lookupEntry config "backends" = some (.vlist bs) →
     ∀ name, RVal.vstr name ∈ bs →
       ∃ es, lookupEntry config name = some (.vmap es) ∧ hasKey es "datadir" = true)

/-- The FailStep object built for a configuration carrying only an
error_message, as produced by add_step. -/
def builtFailStep (n : String) (msg : RVal) : RVal :=
  .stepObj "FailStep" n [("error_message", msg), ("depends_on", .vnull)]

/-- The ConditionStep object built for a bare condition configuration, with
the consumed branch member steps embedded. -/
def builtConditionStep (cname : String) (conds ifS elseS : List RVal) : RVal :=
  .stepObj "ConditionStep" cname
    [("conditions", .vlist conds), ("if_steps", .vlist ifS),
     ("else_steps", .vlist elseS), ("depends_on", .vnull)]

/-! ## Helper lemmas -/

@[simp]
theorem ok_bind {α β : Type} (a : α) (f : α → Except String β) :
    (Except.ok a >>= f) = f a := rfl

@[simp]
theorem error_bind {α β : Type} (e : String) (f : α → Except String β) :
    ((Except.error e : Except String α) >>= f) = Except.error e := rfl

@[simp]
theorem exceptBind_ok {α β : Type} (a : α) (f : α → Except String β) :
    Except.bind (Except.ok a) f = f a := rfl

@[simp]
theorem exceptBind_error {α β : Type} (e : String) (f : α → Except String β) :
    Except.bind (Except.error e : Except String α) f = Except.error e := rfl

theorem lookupEntry_setEntry_self (es : List (String × RVal)) (k : String) (v : RVal) :
    lookupEntry (setEntry es k v) k = some v := by
  induction es with
  | nil => simp [setEntry, lookupEntry]
  | cons p rest ih =>
    obtain ⟨a, w⟩ := p
    by_cases h : a = k
    · simp [setEntry, h, lookupEntry]
    · simp only [setEntry, if_neg h, lookupEntry, if_neg h, ih]

theorem lookupEntry_setEntry_ne (es : List (String × RVal)) (k k' : String) (v : RVal)
    (h : k' ≠ k) : lookupEntry (setEntry es k v) k' = lookupEntry es k' := by
  have h' : ¬(k = k') := fun heq => h heq.symm
  induction es with
  | nil => simp only [setEntry, lookupEntry, if_neg h']
  | cons p rest ih =>
    obtain ⟨a, w⟩ := p
    by_cases hp : a = k
    · subst hp
      simp only [setEntry, if_pos rfl, lookupEntry, if_neg h']
    · simp only [setEntry, if_neg hp, lookupEntry, ih]

theorem lookupEntry_removeEntry_ne (es : List (String × RVal)) (k m : String)
    (h : m ≠ k) : lookupEntry (removeEntry es k) m = lookupEntry es m := by
  induction es with
  | nil => simp [removeEntry]
  | cons p rest ih =>
    obtain ⟨a, w⟩ := p
    by_cases hp : a = k
    · subst hp
      have ham : ¬(a = m) := fun heq => h heq.symm
      simp [removeEntry, lookupEntry, ham]
    · simp only [removeEntry, if_neg hp, lookupEntry, ih]

theorem lookupEntry_eq_none_of_not_mem (es : List (String × RVal)) (k : String)
    (h : k ∉ es.map Prod.fst) : lookupEntry es k = none := by
  induction es with
  | nil => rfl
  | cons p rest ih =>
    obtain ⟨a, w⟩ := p
    simp only [List.map_cons, List.mem_cons, not_or] at h
    have hk : ¬(a = k) := fun heq => h.1 heq.symm
    simp only [lookupEntry, if_neg hk]
    exact ih h.2

theorem lookupEntry_removeEntry_self (es : List (String × RVal)) (k : String)
    (hnd : (es.map Prod.fst).Nodup) : lookupEntry (removeEntry es k) k = none := by
  induction es with
  | nil => simp [removeEntry, lookupEntry]
  | cons p rest ih =>
    obtain ⟨a, w⟩ := p
    simp only [List.map_cons, List.nodup_cons] at hnd
    by_cases hp : a = k
    · subst hp
      simp only [removeEntry, if_pos rfl]
      exact lookupEntry_eq_none_of_not_mem rest a hnd.1
    · simp only [removeEntry, if_neg hp, lookupEntry, if_neg hp]
      exact ih hnd.2

theorem mem_of_isPrefixOf {l m : List Char} (h : l.isPrefixOf m = true) :
    ∀ c ∈ l, c ∈ m := by
  intro c hc
  have h' := List.isPrefixOf_iff_prefix.mp h
  exact h'.subset hc

theorem isPrefixOf_false_of_not_mem {l m : List Char} {c : Char}
    (hc : c ∈ l) (hm : ∀ d ∈ m, d ≠ c) : l.isPrefixOf m = false := by
  by_contra h
  have := mem_of_isPrefixOf (by simpa using h) c hc
  exact hm c this rfl

theorem splitAtSub_none_of_head_not_mem {p : Char} {pt cs : List Char}
    (h : ∀ c ∈ cs, c ≠ p) : splitAtSub (p :: pt) cs = none := by
  induction cs with
  | nil => rfl
  | cons c rest ih =>
    have hpfx : (p :: pt).isPrefixOf (c :: rest) = false := by
      apply isPrefixOf_false_of_not_mem (List.mem_cons_self p pt)
      exact h
    simp only [splitAtSub, hpfx, Bool.false_eq_true, if_false]
    rw [ih (fun d hd => h d (List.mem_cons_of_mem c hd))]
    rfl

theorem splitAtSub_append {p : Char} {pt a b : List Char}
    (h : ∀ c ∈ a, c ≠ p) :
    splitAtSub (p :: pt) (a ++ (p :: pt) ++ b) = some (a, b) := by
  induction a with
  | nil =>
    have hpfx : (p :: pt).isPrefixOf ((p :: pt) ++ b) = true :=
      List.isPrefixOf_iff_prefix.mpr (List.prefix_append _ _)
    rw [List.nil_append, List.cons_append]
    rw [List.cons_append] at hpfx
    simp only [splitAtSub, hpfx, if_true]
    simp only [List.length_cons, List.drop_succ_cons, List.drop_left]
  | cons c a' ih =>
    have hcp : (p == c) = false := by
      rw [beq_eq_false_iff_ne]
      exact fun h' => h c (List.mem_cons_self c a') h'.symm
    have hpfx : (p :: pt).isPrefixOf (c :: (a' ++ (p :: (pt ++ b)))) = false := by
      simp [List.isPrefixOf, hcp]
    have ih' := ih (fun d hd => h d (List.mem_cons_of_mem c hd))
    simp only [List.cons_append, List.append_assoc] at ih' ⊢
    simp only [splitAtSub, hpfx, Bool.false_eq_true, if_false]
    rw [ih']
    rfl

/-! ### Scan lemmas for the env-var pattern -/

theorem foldl_scan_out (a : List Char) (gs : List (List Char))
    (h : ∀ c ∈ a, c ≠ dollarCh) :
    a.foldl scanStep (ScanMode.out, gs) = (ScanMode.out, gs) := by
  induction a with
  | nil => rfl
  | cons c rest ih =>
    have hc : ¬(c = dollarCh) := h c (List.mem_cons_self c rest)
    simp only [List.foldl_cons, scanStep, if_neg hc]
    exact ih (fun d hd => h d (List.mem_cons_of_mem c hd))

theorem foldl_scan_group (n : List Char) (acc : List Char) (gs : List (List Char))
    (h : ∀ c ∈ n, c ≠ rbraceCh ∧ c ≠ newlineCh) :
    n.foldl scanStep (ScanMode.inGroup acc, gs) = (ScanMode.inGroup (n.reverse ++ acc), gs) := by
  induction n generalizing acc with
  | nil => rfl
  | cons c rest ih =>
    have hc := h c (List.mem_cons_self c rest)
    simp only [List.foldl_cons, scanStep, if_neg hc.1, if_neg hc.2]
    rw [ih (c :: acc) (fun d hd => h d (List.mem_cons_of_mem c hd))]
    rw [List.reverse_cons, List.append_assoc]
    rfl

theorem foldl_scan_token (a n b : List Char) (gs : List (List Char))
    (ha : ∀ c ∈ a, c ≠ dollarCh)
    (hn : ∀ c ∈ n, c ≠ rbraceCh ∧ c ≠ newlineCh) :
    (a ++ tokenOf n ++ b).foldl scanStep (ScanMode.out, gs) =
      b.foldl scanStep (ScanMode.out, gs ++ [n]) := by
  have h1 : scanStep (ScanMode.out, gs) dollarCh = (ScanMode.sawDollar, gs) := by
    simp [scanStep]
  have h2 : scanStep (ScanMode.sawDollar, gs) lbraceCh = (ScanMode.inGroup [], gs) := by
    simp [scanStep]
  have h3 : scanStep (ScanMode.inGroup (n.reverse ++ []), gs) rbraceCh =
      (ScanMode.out, gs ++ [n]) := by
    simp [scanStep]
  have e : a ++ tokenOf n ++ b = a ++ (dollarCh :: lbraceCh :: (n ++ (rbraceCh :: b))) := by
    simp [tokenOf]
  rw [e, List.foldl_append, foldl_scan_out a gs ha]
  simp only [List.foldl_cons]
  rw [h1, h2, List.foldl_append, foldl_scan_group n [] gs hn]
  simp only [List.foldl_cons]
  rw [h3]

theorem findGroups_single (a n b : List Char)
    (ha : ∀ c ∈ a, c ≠ dollarCh)
    (hb : ∀ c ∈ b, c ≠ dollarCh)
    (hn : ∀ c ∈ n, c ≠ rbraceCh ∧ c ≠ newlineCh) :
    findGroups (a ++ tokenOf n ++ b) = [n] := by
  unfold findGroups
  rw [foldl_scan_token a n b [] ha hn]
  simp only [List.nil_append]
  rw [foldl_scan_out b [n] hb]

/-! ### Replace lemmas for the env-var token -/

theorem replaceAllGo_nil (pat repl : List Char) (f : Nat) :
    replaceAllGo pat repl f [] = [] := by
  cases f <;> rfl

theorem replaceAllGo_cons (pat repl : List Char) (f : Nat) (c : Char) (rest : List Char) :
    replaceAllGo pat repl (f + 1) (c :: rest) =
      if pat.isPrefixOf (c :: rest) = true ∧ pat ≠ [] then
        repl ++ replaceAllGo pat repl f ((c :: rest).drop pat.length)
      else c :: replaceAllGo pat repl f rest := rfl

theorem replaceAllGo_fuel_irrel (pat repl : List Char) :
    ∀ f₁ f₂ cs, cs.length ≤ f₁ → cs.length ≤ f₂ →
      replaceAllGo pat repl f₁ cs = replaceAllGo pat repl f₂ cs := by
  intro f₁
  induction f₁ with
  | zero =>
    intro f₂ cs hc _
    have : cs = [] := List.length_eq_zero.mp (Nat.le_zero.mp hc)
    subst this
    rw [replaceAllGo_nil, replaceAllGo_nil]
  | succ f ih =>
    intro f₂ cs hc1 hc2
    cases cs with
    | nil => rw [replaceAllGo_nil, replaceAllGo_nil]
    | cons c rest =>
      cases f₂ with
      | zero => exact absurd hc2 (by simp)
      | succ g =>
        simp only [replaceAllGo]
        by_cases hcond : pat.isPrefixOf (c :: rest) = true ∧ pat ≠ []
        · rw [if_pos hcond, if_pos hcond]
          congr 1
          have hlen : ((c :: rest).drop pat.length).length ≤ rest.length := by
            have hp1 : 1 ≤ pat.length :=
              Nat.succ_le_of_lt (List.length_pos.mpr hcond.2)
            simp only [List.length_drop, List.length_cons]
            omega
          apply ih
          · simp only [List.length_cons] at hc1
            omega
          · simp only [List.length_cons] at hc2
            omega
        · rw [if_neg hcond, if_neg hcond]
          congr 1
          apply ih
          · simp only [List.length_cons] at hc1; omega
          · simp only [List.length_cons] at hc2; omega

theorem replaceAllGo_skip (p : Char) (pt repl : List Char) :
    ∀ (a : List Char) (f : Nat) (cs : List Char), (∀ c ∈ a, c ≠ p) →
      a.length + cs.length ≤ f →
      replaceAllGo (p :: pt) repl f (a ++ cs) =
        a ++ replaceAllGo (p :: pt) repl cs.length cs := by
  intro a
  induction a with
  | nil =>
    intro f cs _ hf
    simp only [List.nil_append]
    exact replaceAllGo_fuel_irrel _ _ f cs.length cs (by omega) (Nat.le_refl _)
  | cons c a' ih =>
    intro f cs h hf
    cases f with
    | zero => exact absurd hf (by simp)
    | succ f' =>
      have hcp : (p == c) = false := by
        rw [beq_eq_false_iff_ne]
        exact fun h' => h c (List.mem_cons_self c a') h'.symm
      have hpfx : (p :: pt).isPrefixOf (c :: (a' ++ cs)) = false := by
        simp [List.isPrefixOf, hcp]
      have hcond : ¬((p :: pt).isPrefixOf (c :: (a' ++ cs)) = true ∧ (p :: pt) ≠ []) := by
        simp [hpfx]
      rw [List.cons_append, replaceAllGo_cons, if_neg hcond, List.cons_append]
      rw [ih f' cs (fun d hd => h d (List.mem_cons_of_mem c hd))
        (by simp only [List.length_cons] at hf; omega)]

theorem replaceAllGo_head (pat repl cs : List Char) (f : Nat) (hne : pat ≠ [])
    (hf : pat.length + cs.length ≤ f) :
    replaceAllGo pat repl f (pat ++ cs) =
      repl ++ replaceAllGo pat repl cs.length cs := by
  cases pat with
  | nil => exact absurd rfl hne
  | cons p pt =>
    cases f with
    | zero => exact absurd hf (by simp)
    | succ f' =>
      have hpfx : (p :: pt).isPrefixOf (p :: (pt ++ cs)) = true := by
        rw [← List.cons_append]
        exact List.isPrefixOf_iff_prefix.mpr (List.prefix_append _ _)
      rw [List.cons_append, replaceAllGo_cons, if_pos (And.intro hpfx hne)]
      congr 1
      have hdrop : (p :: (pt ++ cs)).drop (p :: pt).length = cs := by
        simp only [List.length_cons, List.drop_succ_cons, List.drop_left]
      rw [hdrop]
      apply replaceAllGo_fuel_irrel
      · simp only [List.length_cons] at hf ⊢
        omega
      · exact Nat.le_refl _

theorem replaceAllGo_no_occurrence (p : Char) (pt repl : List Char) :
    ∀ (f : Nat) (cs : List Char), (∀ c ∈ cs, c ≠ p) → cs.length ≤ f →
      replaceAllGo (p :: pt) repl f cs = cs := by
  intro f
  induction f with
  | zero =>
    intro cs h hf
    have : cs = [] := List.length_eq_zero.mp (Nat.le_zero.mp hf)
    subst this
    rfl
  | succ f' ih =>
    intro cs h hf
    cases cs with
    | nil => rfl
    | cons c rest =>
      have hcp : (p == c) = false := by
        rw [beq_eq_false_iff_ne]
        exact fun h' => h c (List.mem_cons_self c rest) h'.symm
      have hpfx : (p :: pt).isPrefixOf (c :: rest) = false := by
        simp [List.isPrefixOf, hcp]
      simp only [replaceAllGo, hpfx, Bool.false_eq_true, false_and, if_false]
      rw [ih rest (fun d hd => h d (List.mem_cons_of_mem c hd))
        (by simp only [List.length_cons] at hf; omega)]

theorem replaceAll_token (n repl a b : List Char)
    (ha : ∀ c ∈ a, c ≠ dollarCh) (hb : ∀ c ∈ b, c ≠ dollarCh) :
    replaceAll (tokenOf n) repl (a ++ tokenOf n ++ b) = a ++ repl ++ b := by
  have e : tokenOf n = dollarCh :: (lbraceCh :: (n ++ [rbraceCh])) := rfl
  unfold replaceAll
  rw [e, List.append_assoc]
  rw [replaceAllGo_skip dollarCh (lbraceCh :: (n ++ [rbraceCh])) repl a _
    ((dollarCh :: (lbraceCh :: (n ++ [rbraceCh]))) ++ b) ha
    (by simp [List.length_append] <;> omega)]
  rw [replaceAllGo_head (dollarCh :: (lbraceCh :: (n ++ [rbraceCh]))) repl b _
    (by simp) (by simp [List.length_append] <;> omega)]
  rw [replaceAllGo_no_occurrence dollarCh (lbraceCh :: (n ++ [rbraceCh])) repl
    b.length b hb (Nat.le_refl _)]
  simp [List.append_assoc]

/-! ## Claim C4: environment-variable placeholder resolution -/

/-- C4 (counterexample): loading the scalar data: $\x7bENV_VAR_3\x7d with
ENV_VAR_3 absent from the process environment does not leave the literal
token unresolved as the claim states; env_vars_constructor substitutes
os.environ.get(name, name), which is the bare variable name, so the dollar
sign and braces are stripped. This is the behaviour the repository test
test_env_vars_constructor pins down. -/
theorem claim_C4_counterexample :
    envVarsConstructor (fun _ => none) "data: $\x7bENV_VAR_3\x7d" = "data: ENV_VAR_3" ∧
      envVarsConstructor (fun _ => none) "data: $\x7bENV_VAR_3\x7d" ≠
        "data: $\x7bENV_VAR_3\x7d" :=
  ⟨by decide, by decide⟩

/-- C4 (amended): for a scalar string a ++ $\x7bNAME\x7d ++ b whose
surroundings contain no further dollar sign and whose name spans no closing
brace or newline, env_vars_constructor replaces the placeholder by the
environment value when NAME is set and by the bare name NAME (not the intact
placeholder) when NAME is absent. -/
theorem claim_C4_envVarResolution (env : String → Option String) (a n b : List Char)
    (ha : ∀ c ∈ a, c ≠ dollarCh) (hb : ∀ c ∈ b, c ≠ dollarCh)
    (hn : ∀ c ∈ n, c ≠ rbraceCh ∧ c ≠ newlineCh) :
    envVarsConstructor env (String.mk (a ++ tokenOf n ++ b)) =
      String.mk (a ++ ((env (String.mk n)).getD (String.mk n)).toList ++ b) := by
  unfold envVarsConstructor envVarsResolve
  have htl : (String.mk (a ++ tokenOf n ++ b)).toList = a ++ tokenOf n ++ b := rfl
  rw [htl, findGroups_single a n b ha hb hn]
  simp only [List.foldl_cons, List.foldl_nil]
  exact congrArg String.mk (replaceAll_token n _ a b ha hb)

/-- C4 (witness): the amended statement evaluated on the repository test
vector data: $\x7bENV_VAR_1\x7d with ENV_VAR_1 set to ENV_VALUE_1. -/
theorem claim_C4_envVarResolution_witness :
    envVarsConstructor (fun s => if s = "ENV_VAR_1" then some "ENV_VALUE_1" else none)
      "data: $\x7bENV_VAR_1\x7d" = "data: ENV_VALUE_1" := by
  have h := claim_C4_envVarResolution
    (fun s => if s = "ENV_VAR_1" then some "ENV_VALUE_1" else none)
    "data: ".toList "ENV_VAR_1".toList [] (by decide) (by decide) (by decide)
  rw [show String.mk ("data: ".toList ++ tokenOf "ENV_VAR_1".toList ++ []) =
      ("data: $\x7bENV_VAR_1\x7d" : String) from by decide] at h
  exact h.trans (by decide)

/-! ## Claim C5: param: argument resolution -/

theorem startsWithL_append_self (q x : String) :
    startsWithL q (q ++ x) = true := by
  unfold startsWithL
  apply List.isPrefixOf_iff_prefix.mpr
  show q.data <+: (q ++ x).data
  rw [String.data_append]
  exact List.prefix_append _ _

theorem afterColonSeg_param (x : String) (hx : ∀ c ∈ x.toList, c ≠ ':') :
    afterColonSeg (paramPfx ++ x) = x := by
  unfold afterColonSeg
  have hdecomp : (paramPfx ++ x).toList = "param".toList ++ ([':'] ++ x.toList) := by
    show (paramPfx ++ x).data = _
    rw [String.data_append]
    rfl
  rw [hdecomp, ← List.append_assoc,
    splitAtSub_append (a := "param".toList) (b := x.toList) (by decide)]
  have ht : x.toList.takeWhile (fun c => c ≠ ':') = x.toList := by
    apply List.takeWhile_eq_self_iff.mpr
    intro c hc
    simp [hx c hc]
  show String.mk (x.toList.takeWhile (fun c => c ≠ ':')) = x
  rw [ht]
  rfl

/-- C5: for every builder state and colon-free name x, resolving the argument
string param:x returns exactly the stored parameter handle when x is in the
parameter table and fails with a lookup (KeyError) error when it is absent;
a non-string argument is returned unchanged. -/
theorem claim_C5_paramResolution (b : Builder) (x : String) (V : RVal)
    (hx : ∀ c ∈ x.toList, c ≠ ':') :
    (lookupEntry b.parameters x = some V →
      replaceArgument b (.vstr (paramPfx ++ x)) = .ok V) ∧
    (lookupEntry b.parameters x = none →
      ∃ msg, replaceArgument b (.vstr (paramPfx ++ x)) = .error msg) ∧
    (∀ v : RVal, (∀ s, v ≠ .vstr s) → replaceArgument b v = .ok v) := by
  refine ⟨?_, ?_, ?_⟩
  · intro hlook
    unfold replaceArgument
    dsimp only
    rw [if_pos (startsWithL_append_self paramPfx x), afterColonSeg_param x hx, hlook]
  · intro hlook
    unfold replaceArgument
    dsimp only
    rw [if_pos (startsWithL_append_self paramPfx x), afterColonSeg_param x hx, hlook]
    exact ⟨_, rfl⟩
  · intro v hv
    cases v with
    | vstr s => exact absurd rfl (hv s)
    | vnull => rfl
    | vbool c => rfl
    | vint c => rfl
    | vlist c => rfl
    | vmap c => rfl
    | execVarObj c => rfl
    | enumObj c => rfl
    | propsObj c d => rfl
    | factoryObj c d => rfl
    | extCallObj c d => rfl
    | stepObj c d e => rfl

/-- C5 (witness): resolution of param:x on a builder whose parameter table
binds x, and of param:missing on the same builder. -/
theorem claim_C5_paramResolution_witness :
    replaceArgument { parameters := [("x", RVal.vint 7)] } (.vstr (paramPfx ++ "x")) =
      .ok (.vint 7) :=
  (claim_C5_paramResolution { parameters := [("x", RVal.vint 7)] } "x" (.vint 7)
    (by decide)).1 rfl

/-! ## Claim C1: the step-type discriminator -/

theorem nodup_all_eq_singleton {l : List String} {k : String}
    (hnd : l.Nodup) (hin : k ∈ l) (hall : ∀ x ∈ l, x = k) : l = [k] := by
  cases l with
  | nil => exact absurd hin (List.not_mem_nil k)
  | cons a t =>
    have hak : a = k := hall a (List.mem_cons_self a t)
    subst hak
    have ht : t = [] := by
      cases t with
      | nil => rfl
      | cons y t2 =>
        have hy : y = a := hall y (List.mem_cons_of_mem a (List.mem_cons_self y t2))
        exact absurd (hy ▸ List.mem_cons_self y t2) (List.nodup_cons.mp hnd).1
    rw [ht]

theorem contains_false_of_pair {keys : List String} (hpair : ExactTunerPair keys)
    (e : String) (he : e ∈ stepTypesList) (hne1 : e ≠ "estimator_kwargs")
    (hne2 : e ≠ "tuner_kwargs") : e ∉ keys := by
  intro hmem
  rcases hpair.2.2 e he (List.elem_iff.mpr hmem) with h | h
  · exact absurd h hne1
  · exact absurd h hne2

/-- C1: the discriminator selects the unique matching discriminator key when
exactly one of the closed step-type set occurs among the top-level keys;
when the intersection is exactly the estimator_kwargs / tuner_kwargs pair it
selects the tuning variant tuner_kwargs; in every other case it raises the
ambiguous-or-unrecognized ValueError. -/
theorem claim_C1_discriminator (keys : List String) :
    (∀ k, UniqueMatch keys k → getDiscriminatorValue keys = .ok k) ∧
    (ExactTunerPair keys → getDiscriminatorValue keys = .ok "tuner_kwargs") ∧
    ((∀ k, ¬ UniqueMatch keys k) → ¬ ExactTunerPair keys →
      ∃ msg, getDiscriminatorValue keys = .error msg) := by
  have hndst : stepTypesList.Nodup := by decide
  refine ⟨?_, ?_, ?_⟩
  · rintro k ⟨hk1, hk2, hk3⟩
    have hin : k ∈ stepTypesList.filter (fun k => keys.contains k) :=
      List.mem_filter.mpr ⟨hk1, hk2⟩
    have hall : ∀ x ∈ stepTypesList.filter (fun k => keys.contains k), x = k := by
      intro x hx
      have hx' := List.mem_filter.mp hx
      exact hk3 x hx'.1 hx'.2
    have hm := nodup_all_eq_singleton (hndst.filter _) hin hall
    simp only [getDiscriminatorValue, hm]
  · intro hpair
    have h01 := contains_false_of_pair hpair "automl_kwargs" (by decide) (by decide) (by decide)
    have h02 := contains_false_of_pair hpair "check_job_config_kwargs" (by decide) (by decide) (by decide)
    have h03 := contains_false_of_pair hpair "conditions" (by decide) (by decide) (by decide)
    have h04 := contains_false_of_pair hpair "emr_step_config_kwargs" (by decide) (by decide) (by decide)
    have h05 := contains_false_of_pair hpair "error_message" (by decide) (by decide) (by decide)
    have h06 := contains_false_of_pair hpair "lambda_func_kwargs" (by decide) (by decide) (by decide)
    have h07 := contains_false_of_pair hpair "model_kwargs" (by decide) (by decide) (by decide)
    have h08 := contains_false_of_pair hpair "notebook_job_kwargs" (by decide) (by decide) (by decide)
    have h09 := contains_false_of_pair hpair "processor_kwargs" (by decide) (by decide) (by decide)
    have h10 := contains_false_of_pair hpair "sqs_queue_url" (by decide) (by decide) (by decide)
    have h11 := contains_false_of_pair hpair "transformer_kwargs" (by decide) (by decide) (by decide)
    have hest : "estimator_kwargs" ∈ keys := List.elem_iff.mp hpair.1
    have htun : "tuner_kwargs" ∈ keys := List.elem_iff.mp hpair.2.1
    have hm : stepTypesList.filter (fun k => keys.contains k) =
        ["estimator_kwargs", "tuner_kwargs"] := by
      simp [stepTypesList, List.filter_cons, h01, h02, h03, h04, h05, h06, h07, h08,
        h09, h10, h11, hest, htun]
    unfold getDiscriminatorValue
    rw [hm]
    rfl
  · intro hnu hnp
    rcases hm : stepTypesList.filter (fun k => keys.contains k) with _ | ⟨a, _ | ⟨c, rest⟩⟩
    · exact ⟨"ValueError: Only one of the step type keys must be provided.",
        by unfold getDiscriminatorValue; rw [hm]; rfl⟩
    · exfalso
      apply hnu a
      have ha := List.mem_filter.mp (hm ▸ List.mem_cons_self a ([] : List String))
      refine ⟨ha.1, ha.2, ?_⟩
      intro k' hk1 hk2
      have : k' ∈ stepTypesList.filter (fun k => keys.contains k) :=
        List.mem_filter.mpr ⟨hk1, hk2⟩
      rw [hm] at this
      simpa using this
    · by_cases hcond : (a :: c :: rest).length = 2 ∧
        (a :: c :: rest).contains "estimator_kwargs" = true ∧
        (a :: c :: rest).contains "tuner_kwargs" = true
      · exfalso
        apply hnp
        have hrest : rest = [] := by
          have := hcond.1
          simp only [List.length_cons] at this
          exact List.length_eq_zero.mp (by omega)
        subst hrest
        have hest : "estimator_kwargs" ∈ ([a, c] : List String) :=
          List.elem_iff.mp hcond.2.1
        have htun : "tuner_kwargs" ∈ ([a, c] : List String) :=
          List.elem_iff.mp hcond.2.2
        have hmemIff : ∀ x, x ∈ ([a, c] : List String) ↔
            x ∈ stepTypesList ∧ keys.contains x = true := by
          intro x
          rw [← hm]
          exact List.mem_filter
        refine ⟨((hmemIff "estimator_kwargs").mp hest).2,
          ((hmemIff "tuner_kwargs").mp htun).2, ?_⟩
        intro k' hk1 hk2
        have hkm : k' ∈ ([a, c] : List String) := (hmemIff k').mpr ⟨hk1, hk2⟩
        have hne : ("estimator_kwargs" : String) ≠ "tuner_kwargs" := by decide
        have hea : "estimator_kwargs" = a ∨ "estimator_kwargs" = c := by
          simpa using hest
        have hta : "tuner_kwargs" = a ∨ "tuner_kwargs" = c := by
          simpa using htun
        have hkac : k' = a ∨ k' = c := by simpa using hkm
        rcases hea with hea | hea <;> rcases hta with hta | hta
        · exact absurd (hea.trans hta.symm) hne
        · rcases hkac with h | h
          · exact Or.inl (h.trans hea.symm)
          · exact Or.inr (h.trans hta.symm)
        · rcases hkac with h | h
          · exact Or.inr (h.trans hta.symm)
          · exact Or.inl (h.trans hea.symm)
        · exact absurd (hea.trans hta.symm) hne
      · refine ⟨"ValueError: Only one of the step type keys must be provided.", ?_⟩
        unfold getDiscriminatorValue
        rw [hm]
        exact if_neg hcond

/-- C1 (witness): the discriminator evaluated at a unique training match, at
the exact tuning pair, and at an ambiguous pair. -/
theorem claim_C1_discriminator_witness :
    getDiscriminatorValue ["estimator_kwargs", "fit_kwargs"] = .ok "estimator_kwargs" ∧
    getDiscriminatorValue ["estimator_kwargs", "tuner_kwargs"] = .ok "tuner_kwargs" ∧
    ∃ msg, getDiscriminatorValue ["estimator_kwargs", "processor_kwargs"] = .error msg :=
  ⟨(claim_C1_discriminator ["estimator_kwargs", "fit_kwargs"]).1 "estimator_kwargs"
      ⟨by decide, by decide, by decide⟩,
   (claim_C1_discriminator ["estimator_kwargs", "tuner_kwargs"]).2.1
      ⟨by decide, by decide, by decide⟩,
   (claim_C1_discriminator ["estimator_kwargs", "processor_kwargs"]).2.2
      (by
        rintro k ⟨h1, h2, h3⟩
        have ha := h3 "processor_kwargs" (by decide) (by decide)
        have hb := h3 "estimator_kwargs" (by decide) (by decide)
        exact absurd (hb.trans ha.symm) (by decide))
      (by rintro ⟨h1, h2, h3⟩; exact absurd h2 (by decide))⟩

/-! ## Claim C8: pipeline-not-found guards -/

/-- C8: while build was never called the pipeline field is unset and each of
definition, upsert and run fails with the PipelineNotFoundError message and
produces no external service call (the error is the whole result); after
build the pipeline field is set and none of the three operations produces
that error. -/
theorem claim_C8_pipelineNotFound (b : Builder) :
    (b.pipeline = none →
      definitionOp b = .error (pnfMsg b) ∧ upsertOp b = .error (pnfMsg b) ∧
        ∀ params, runOp b params = .error (pnfMsg b)) ∧
    ((buildPipeline b).pipeline.isSome = true ∧
      (∃ v, definitionOp (buildPipeline b) = .ok v) ∧
      (∃ v, upsertOp (buildPipeline b) = .ok v) ∧
      ∀ params, ∃ v, runOp (buildPipeline b) params = .ok v) := by
  constructor
  · intro h
    refine ⟨?_, ?_, fun params => ?_⟩ <;> (first
      | (unfold definitionOp; rw [h])
      | (unfold upsertOp; rw [h])
      | (unfold runOp; rw [h]))
  · exact ⟨rfl, ⟨_, rfl⟩, ⟨_, rfl⟩, fun params => ⟨_, rfl⟩⟩

/-- C8 (witness): the guards evaluated on a freshly initialized builder. -/
theorem claim_C8_pipelineNotFound_witness :
    definitionOp {} = .error (pnfMsg {}) ∧ upsertOp {} = .error (pnfMsg {}) ∧
      ∀ params, runOp {} params = .error (pnfMsg {}) :=
  (claim_C8_pipelineNotFound {}).1 rfl

/-! ## Claim C10: reserved top-level keys are skipped -/

/-- C10: add_steps equals the unconditional fold of add_step over the
configuration with the entries keyed by the six reserved top-level names
filtered out: reserved entries are never treated as step configurations and
every other entry builds a step. -/
theorem claim_C10_reservedKeys (b : Builder) (cfg : List (String × RVal)) :
    addSteps b cfg =
      addStepsAll b (cfg.filter (fun p => !(reservedTopKeys.contains p.1))) ∧
    reservedTopKeys = ["name", "parameters", "max_parallel_execution_steps",
      "property_files", "use_custom_job_prefix", "pipeline_experiment_config"] := by
  refine ⟨?_, rfl⟩
  induction cfg generalizing b with
  | nil => rfl
  | cons p rest ih =>
    obtain ⟨name, kw⟩ := p
    by_cases hr : reservedTopKeys.contains name = true
    · simp only [addSteps, hr, if_true, List.filter_cons, Bool.not_eq_true']
      rw [if_neg (by simp [hr])]
      exact ih b
    · have hr' : reservedTopKeys.contains name = false := by
        cases hc : reservedTopKeys.contains name
        · rfl
        · exact absurd hc hr
      simp only [addSteps, hr', Bool.false_eq_true, if_false, List.filter_cons]
      rw [if_pos (by simp [hr'])]
      cases kw with
      | vmap es =>
        simp only [addStepsAll]
        cases h : addStep b name es with
        | ok b' => simp only [ok_bind]; exact ih b'
        | error e => simp only [error_bind]
      | vnull => rfl
      | vbool c => rfl
      | vint c => rfl
      | vstr c => rfl
      | vlist c => rfl
      | execVarObj c => rfl
      | enumObj c => rfl
      | propsObj c d => rfl
      | factoryObj c d => rfl
      | extCallObj c d => rfl
      | stepObj c d e => rfl

/-! ## Claim C7: blueprint structural validation -/

theorem checkHieraKey_ok_iff (config : List (String × RVal)) (k : String) :
    checkHieraKey config k = .ok () ↔
      ∃ xs, lookupEntry config k = some (.vlist xs) := by
  unfold checkHieraKey
  cases h : lookupEntry config k with
  | none => simp
  | some v =>
    cases v <;> simp [isVList]

theorem checkBackend_vstr_ok_iff (config : List (String × RVal)) (s : String) :
    checkBackend config (.vstr s) = .ok () ↔
      ∃ es, lookupEntry config s = some (.vmap es) ∧ hasKey es "datadir" = true := by
  unfold checkBackend
  dsimp only
  cases h : lookupEntry config s with
  | none => simp
  | some v =>
    cases v with
    | vmap es =>
      by_cases hd : hasKey es "datadir" = true
      · simp [hd]
      · simp only [if_neg hd]
        constructor
        · intro h'
          exact absurd h' (by simp)
        · rintro ⟨es', hes', hd'⟩
          cases hes'
          exact absurd hd' hd
    | vnull => simp
    | vbool c => simp
    | vint c => simp
    | vstr c => simp
    | vlist c => simp
    | execVarObj c => simp
    | enumObj c => simp
    | propsObj c d => simp
    | factoryObj c d => simp
    | extCallObj c d => simp
    | stepObj c d e => simp

theorem checkBackends_ok_iff (config : List (String × RVal)) (bs : List RVal)
    (hstr : ∀ x ∈ bs, ∃ s, x = .vstr s) :
    checkBackends config bs = .ok () ↔
      ∀ name, RVal.vstr name ∈ bs →
        ∃ es, lookupEntry config name = some (.vmap es) ∧ hasKey es "datadir" = true := by
  induction bs with
  | nil => simp [checkBackends]
  | cons x rest ih =>
    obtain ⟨s, rfl⟩ := hstr x (List.mem_cons_self x rest)
    have ih' := ih (fun y hy => hstr y (List.mem_cons_of_mem _ hy))
    simp only [checkBackends]
    cases hcb : checkBackend config (.vstr s) with
    | error e =>
      simp only [error_bind]
      constructor
      · intro h
        exact absurd h (by simp)
      · intro h
        have := (checkBackend_vstr_ok_iff config s).mpr
          (h s (List.mem_cons_self _ _))
        rw [hcb] at this
        exact absurd this (by simp)
    | ok u =>
      cases u
      simp only [ok_bind]
      rw [ih']
      constructor
      · intro h name hmem
        rcases List.mem_cons.mp hmem with heq | hmem'
        · have hs : s = name := by
            cases heq
            rfl
          subst hs
          exact (checkBackend_vstr_ok_iff config s).mp hcb
        · exact h name hmem'
      · intro h name hmem
        exact h name (List.mem_cons_of_mem _ hmem)

theorem blueprintValidate_ok_iff (config : List (String × RVal))
    (hstr : ∀ bs, lookupEntry config "backends" = some (.vlist bs) →
      ∀ x ∈ bs, ∃ s, x = .vstr s) :
    blueprintValidate config = .ok () ↔ GoodBlueprint config := by
  unfold blueprintValidate
  cases h1 : checkHieraKey config "backends" with
  | error e =>
    simp only [error_bind]
    constructor
    · intro h
      exact absurd h (by simp)
    · rintro ⟨hg, _⟩
      have := (checkHieraKey_ok_iff config "backends").mpr (hg "backends" (by simp))
      rw [h1] at this
      exact absurd this (by simp)
  | ok u1 =>
    cases u1
    simp only [ok_bind]
    cases h2 : checkHieraKey config "context" with
    | error e =>
      simp only [error_bind]
      constructor
      · intro h
        exact absurd h (by simp)
      · rintro ⟨hg, _⟩
        have := (checkHieraKey_ok_iff config "context").mpr (hg "context" (by simp))
        rw [h2] at this
        exact absurd this (by simp)
    | ok u2 =>
      cases u2
      simp only [ok_bind]
      cases h3 : checkHieraKey config "hierarchy" with
      | error e =>
        simp only [error_bind]
        constructor
        · intro h
          exact absurd h (by simp)
        · rintro ⟨hg, _⟩
          have := (checkHieraKey_ok_iff config "hierarchy").mpr (hg "hierarchy" (by simp))
          rw [h3] at this
          exact absurd this (by simp)
      | ok u3 =>
        cases u3
        simp only [ok_bind]
        obtain ⟨bs, hbs⟩ := (checkHieraKey_ok_iff config "backends").mp h1
        rw [hbs]
        rw [checkBackends_ok_iff config bs (hstr bs hbs)]
        constructor
        · intro h
          refine ⟨?_, ?_⟩
          · intro k hk
            simp only [List.mem_cons, List.mem_singleton, List.not_mem_nil, or_false] at hk
            rcases hk with rfl | rfl | rfl
            · exact ⟨bs, hbs⟩
            · exact (checkHieraKey_ok_iff config "context").mp h2
            · exact (checkHieraKey_ok_iff config "hierarchy").mp h3
          · intro bs' hbs' name hname
            rw [hbs] at hbs'
            cases hbs'
            exact h name hname
        · rintro ⟨_, hback⟩
          exact hback bs hbs

/-- C7: validate raises a blueprint-validation error exactly when one of the
keys backends, context, hierarchy is missing or not a list, or some backend
named in the backends list lacks a mapping configuration carrying the datadir
storage directory; when all structural conditions hold it succeeds. The
backends entries are assumed to be strings, as non-string entries cannot
index the string-keyed YAML document. -/
theorem claim_C7_blueprintValidate (config : List (String × RVal))
    (hstr : ∀ bs, lookupEntry config "backends" = some (.vlist bs) →
      ∀ x ∈ bs, ∃ s, x = .vstr s) :
    (∃ msg, blueprintValidate config = .error msg) ↔ ¬ GoodBlueprint config := by
  constructor
  · rintro ⟨msg, hmsg⟩ hgood
    have := (blueprintValidate_ok_iff config hstr).mpr hgood
    rw [hmsg] at this
    exact absurd this (by simp)
  · intro hngood
    cases h : blueprintValidate config with
    | error msg => exact ⟨msg, rfl⟩
    | ok u =>
      cases u
      exact absurd ((blueprintValidate_ok_iff config hstr).mp h) hngood

/-- C7 (witness): a root document whose base backend configuration lacks
datadir fails validation, as the claim requires. -/
theorem claim_C7_blueprintValidate_witness :
    ∃ msg, blueprintValidate
      [("backends", .vlist [.vstr "base"]), ("context", .vlist []),
       ("hierarchy", .vlist []), ("base", .vmap [])] = .error msg := by
  apply (claim_C7_blueprintValidate _ ?_).mpr ?_
  · intro bs hbs x hx
    refine ⟨"base", ?_⟩
    have hb0 : some (RVal.vlist [RVal.vstr "base"]) = some (RVal.vlist bs) := by
      rw [← hbs]
      rfl
    cases hb0
    simpa using hx
  · rintro ⟨_, hback⟩
    obtain ⟨es, hes, hd⟩ := hback [RVal.vstr "base"] (by rfl) "base" (by simp)
    have he0 : some (RVal.vmap ([] : List (String × RVal))) = some (RVal.vmap es) := by
      rw [← hes]
      rfl
    cases he0
    simp [hasKey, lookupEntry] at hd

/-! ## Claim C3: model-step mutual exclusivity -/

theorem requireStr_ok (kw : List (String × RVal)) (k s : String)
    (h : lookupEntry kw k = some (.vstr s)) : requireStr kw k = .ok s := by
  unfold requireStr
  rw [h]

theorem requireMap_ok (kw : List (String × RVal)) (k : String) (es : List (String × RVal))
    (h : lookupEntry kw k = some (.vmap es)) : requireMap kw k = .ok es := by
  unfold requireMap
  rw [h]

theorem optList_wt (kw : List (String × RVal)) (k : String)
    (h : (match lookupEntry kw k with
          | none => true | some .vnull => true | some (.vlist _) => true
          | _ => false) = true) :
    ∃ r, optList kw k = .ok r := by
  unfold optList
  rcases hl : lookupEntry kw k with _ | v
  · exact ⟨none, rfl⟩
  · rw [hl] at h
    cases v <;> simp at h <;> exact ⟨_, rfl⟩

theorem optMapOrList_wt (kw : List (String × RVal)) (k : String)
    (h : (match lookupEntry kw k with
          | none => true | some .vnull => true | some (.vlist _) => true
          | some (.vmap _) => true | _ => false) = true) :
    ∃ r, optMapOrList kw k = .ok r := by
  unfold optMapOrList
  rcases hl : lookupEntry kw k with _ | v
  · exact ⟨.vnull, rfl⟩
  · rw [hl] at h
    cases v <;> simp at h <;> exact ⟨_, rfl⟩

theorem optStrD_wt (kw : List (String × RVal)) (k dflt : String)
    (h : (match lookupEntry kw k with
          | none => true | some .vnull => true | some (.vstr _) => true
          | _ => false) = true) :
    ∃ r, optStrD kw k dflt = .ok r := by
  unfold optStrD
  rcases hl : lookupEntry kw k with _ | v
  · exact ⟨some dflt, rfl⟩
  · rw [hl] at h
    cases v <;> simp at h <;> exact ⟨_, rfl⟩

theorem optMap_wt (kw : List (String × RVal)) (k : String)
    (h : (match lookupEntry kw k with
          | none => true | some .vnull => true | some (.vmap _) => true
          | _ => false) = true) :
    ∃ r, optMap kw k = .ok r ∧ r.isSome = givenKey kw k := by
  unfold optMap givenKey
  rcases hl : lookupEntry kw k with _ | v
  · exact ⟨none, rfl, rfl⟩
  · rw [hl] at h
    cases v <;> simp at h
    · exact ⟨none, rfl, rfl⟩
    · exact ⟨_, rfl, rfl⟩

/-- C3: on a well-typed model-step configuration the mutually exclusive
create_model_kwargs / register_model_kwargs group is enforced during model
validation: when both or neither are given, validation raises the ValueError,
the whole validate-and-build path returns that same error, and no external
helper construction or action invocation takes place; when exactly one is
given, validation succeeds. -/
theorem claim_C3_modelStepExclusive (kw : List (String × RVal))
    (hwt : ModelCfgWellTyped kw = true) :
    (xor (givenKey kw "create_model_kwargs") (givenKey kw "register_model_kwargs") = false →
      ∃ msg, modelStepModelValidate kw = .error msg ∧ modelStepVB kw = .error msg ∧
        modelStepExternalCalls kw = []) ∧
    (xor (givenKey kw "create_model_kwargs") (givenKey kw "register_model_kwargs") = true →
      ∃ f, modelStepModelValidate kw = .ok f) := by
  simp only [ModelCfgWellTyped, Bool.and_eq_true] at hwt
  obtain ⟨⟨⟨⟨⟨⟨h1, h2⟩, h3⟩, h4⟩, h5⟩, h6⟩, h7⟩ := hwt
  obtain ⟨nm, hname⟩ : ∃ s, lookupEntry kw "name" = some (.vstr s) := by
    rcases hl : lookupEntry kw "name" with _ | v
    · rw [hl] at h1; simp at h1
    · rw [hl] at h1; cases v <;> simp at h1 <;> exact ⟨_, rfl⟩
  obtain ⟨mk, hmk⟩ : ∃ es, lookupEntry kw "model_kwargs" = some (.vmap es) := by
    rcases hl : lookupEntry kw "model_kwargs" with _ | v
    · rw [hl] at h2; simp at h2
    · rw [hl] at h2; cases v <;> simp at h2 <;> exact ⟨_, rfl⟩
  obtain ⟨dep, hdep⟩ := optList_wt kw "depends_on" h3
  obtain ⟨ret, hret⟩ := optMapOrList_wt kw "retry_policies" h4
  obtain ⟨mdl, hmdl⟩ := optStrD_wt kw "model" "sagemaker.model:Model" h5
  obtain ⟨cr, hcr, hcrg⟩ := optMap_wt kw "create_model_kwargs" h6
  obtain ⟨rg, hrg, hrgg⟩ := optMap_wt kw "register_model_kwargs" h7
  have hval : modelStepModelValidate kw =
      (if !(xor cr.isSome rg.isSome) then
        .error "ValidationError: Either specify create_model_kwargs or register_model_kwargs."
      else
        .ok { mname := nm, mdependsOn := dep, mretry := ret, mmodel := mdl,
              mmodelKwargs := mk, mcreateKwargs := cr, mregisterKwargs := rg }) := by
    unfold modelStepModelValidate
    rw [requireStr_ok kw "name" nm hname]
    simp only [ok_bind]
    rw [hdep]
    simp only [ok_bind]
    rw [hret]
    simp only [ok_bind]
    rw [hmdl]
    simp only [ok_bind]
    rw [requireMap_ok kw "model_kwargs" mk hmk]
    simp only [ok_bind]
    rw [hcr]
    simp only [ok_bind]
    rw [hrg]
    simp only [ok_bind]
  constructor
  · intro hx
    rw [← hcrg, ← hrgg] at hx
    rw [hx] at hval
    simp only [Bool.not_false, if_pos] at hval
    refine ⟨_, hval, ?_, ?_⟩
    · unfold modelStepVB
      rw [hval]
      simp only [error_bind]
    · unfold modelStepExternalCalls
      rw [hval]
  · intro hx
    rw [← hcrg, ← hrgg] at hx
    rw [hx] at hval
    simp only [Bool.not_true, Bool.false_eq_true, if_false] at hval
    exact ⟨_, hval⟩

/-- C3 (witness): a well-typed model-step configuration giving exactly
create_model_kwargs validates successfully. -/
theorem claim_C3_modelStepExclusive_witness :
    ∃ f, modelStepModelValidate
      [("name", .vstr "m"), ("model_kwargs", .vmap []),
       ("create_model_kwargs", .vmap [])] = .ok f :=
  (claim_C3_modelStepExclusive
    [("name", .vstr "m"), ("model_kwargs", .vmap []), ("create_model_kwargs", .vmap [])]
    (by decide)).2 (by decide)

/-! ## Claim C6: literal trees resolve to themselves -/

theorem replaceArgument_nonstr (b : Builder) (v : RVal) (hv : ∀ s, v ≠ .vstr s) :
    replaceArgument b v = .ok v := by
  cases v with
  | vstr s => exact absurd rfl (hv s)
  | vnull => rfl
  | vbool c => rfl
  | vint c => rfl
  | vlist c => rfl
  | vmap c => rfl
  | execVarObj c => rfl
  | enumObj c => rfl
  | propsObj c d => rfl
  | factoryObj c d => rfl
  | extCallObj c d => rfl
  | stepObj c d e => rfl

theorem replaceArgument_plain (b : Builder) (s : String) (hp : plainString s = true) :
    replaceArgument b (.vstr s) = .ok (.vstr s) := by
  simp only [plainString, Bool.and_eq_true, Bool.not_eq_true'] at hp
  obtain ⟨⟨⟨hp1, hp2⟩, hp3⟩, hp4⟩ := hp
  unfold replaceArgument
  dsimp only
  rw [hp1]
  simp only [Bool.false_eq_true, if_false]
  rw [hp2]
  simp only [Bool.false_eq_true, if_false]
  rw [hp3]
  simp only [Bool.false_eq_true, if_false]
  have hnone : splitAtSub propsIdent.toList s.toList = none := by
    unfold containsSub at hp4
    cases hs : splitAtSub propsIdent.toList s.toList with
    | none => rfl
    | some pr =>
      rw [hs] at hp4
      simp at hp4
  rw [hnone]

theorem goList_of_resolvesId (b : Builder) (xs : List RVal)
    (h : ∀ x ∈ xs, ResolvesId b x) : goList b xs = .ok xs := by
  induction xs with
  | nil => simp [goList]
  | cons x rest ih =>
    have hx := h x (List.mem_cons_self x rest)
    have hy : (match x with
               | RVal.vmap es => goRSA b [] es
               | other => replaceArgument b other) = .ok x := by
      cases x with
      | vmap es =>
        have := hx.1 es rfl []
        simpa using this
      | vstr s => exact hx.2.2
      | vnull => exact hx.2.2
      | vbool c => exact hx.2.2
      | vint c => exact hx.2.2
      | vlist c => exact hx.2.2
      | execVarObj c => exact hx.2.2
      | enumObj c => exact hx.2.2
      | propsObj c d => exact hx.2.2
      | factoryObj c d => exact hx.2.2
      | extCallObj c d => exact hx.2.2
      | stepObj c d e => exact hx.2.2
    unfold goList
    rw [hy]
    simp only [exceptBind_ok]
    rw [ih (fun y hy2 => h y (List.mem_cons_of_mem x hy2))]
    simp only [exceptBind_ok]

theorem goRSA_of_resolvesId (b : Builder) (es : List (String × RVal))
    (hff : ∀ p ∈ es, p.1 ≠ factoryFunctionKey)
    (hfe : ∀ p ∈ es, p.1 ≠ factoryEnumKey)
    (h : ∀ p ∈ es, ResolvesId b p.2) :
    ∀ done, goRSA b done es = .ok (.vmap (done ++ es)) := by
  induction es with
  | nil =>
    intro done
    simp only [goRSA, List.append_nil]
  | cons p rest ih =>
    intro done
    obtain ⟨k, v⟩ := p
    have hk1 : k ≠ factoryFunctionKey := hff (k, v) (List.mem_cons_self _ _)
    have hk2 : k ≠ factoryEnumKey := hfe (k, v) (List.mem_cons_self _ _)
    have hv := h (k, v) (List.mem_cons_self _ _)
    have ih' := ih (fun q hq => hff q (List.mem_cons_of_mem _ hq))
      (fun q hq => hfe q (List.mem_cons_of_mem _ hq))
      (fun q hq => h q (List.mem_cons_of_mem _ hq))
    have happ : ∀ w : RVal, done ++ [(k, w)] ++ rest = done ++ ((k, w) :: rest) := by
      intro w
      rw [List.append_assoc]
      rfl
    unfold goRSA
    rw [if_neg hk1, if_neg hk2]
    cases v with
    | vmap es2 =>
      have h2 := hv.1 es2 rfl []
      rw [List.nil_append] at h2
      dsimp only
      rw [h2]
      simp only [exceptBind_ok]
      rw [ih' (done ++ [(k, RVal.vmap es2)]), happ]
    | vlist xs =>
      dsimp only
      rw [hv.2.1 xs rfl]
      simp only [exceptBind_ok]
      rw [ih' (done ++ [(k, RVal.vlist xs)]), happ]
    | vstr s =>
      dsimp only
      rw [hv.2.2]
      simp only [exceptBind_ok]
      rw [ih' (done ++ [(k, RVal.vstr s)]), happ]
    | vnull => dsimp only; rw [ih' (done ++ [(k, RVal.vnull)]), happ]
    | vbool c => dsimp only; rw [ih' (done ++ [(k, RVal.vbool c)]), happ]
    | vint c => dsimp only; rw [ih' (done ++ [(k, RVal.vint c)]), happ]
    | execVarObj c => dsimp only; rw [ih' (done ++ [(k, RVal.execVarObj c)]), happ]
    | enumObj c => dsimp only; rw [ih' (done ++ [(k, RVal.enumObj c)]), happ]
    | propsObj c d => dsimp only; rw [ih' (done ++ [(k, RVal.propsObj c d)]), happ]
    | factoryObj c d => dsimp only; rw [ih' (done ++ [(k, RVal.factoryObj c d)]), happ]
    | extCallObj c d => dsimp only; rw [ih' (done ++ [(k, RVal.extCallObj c d)]), happ]
    | stepObj c d e => dsimp only; rw [ih' (done ++ [(k, RVal.stepObj c d e)]), happ]

theorem literal_resolvesId (b : Builder) (v : RVal) (h : LiteralOnly v) :
    ResolvesId b v := by
  induction h with
  | vnull =>
    exact ⟨fun es h => RVal.noConfusion h, fun xs h => RVal.noConfusion h, rfl⟩
  | vbool c =>
    exact ⟨fun es h => RVal.noConfusion h, fun xs h => RVal.noConfusion h, rfl⟩
  | vint c =>
    exact ⟨fun es h => RVal.noConfusion h, fun xs h => RVal.noConfusion h, rfl⟩
  | vstr s hp =>
    exact ⟨fun es h => RVal.noConfusion h, fun xs h => RVal.noConfusion h,
      replaceArgument_plain b s hp⟩
  | vlist xs hmem ih =>
    refine ⟨fun es h => RVal.noConfusion h, ?_,
      replaceArgument_nonstr b _ (fun s h => RVal.noConfusion h)⟩
    intro ys hys
    cases hys
    exact goList_of_resolvesId b xs ih
  | vmap es hff hfe hmem ih =>
    refine ⟨?_, fun xs h2 => RVal.noConfusion h2,
      replaceArgument_nonstr b _ (fun s h => RVal.noConfusion h)⟩
    intro es2 h2
    cases h2
    exact goRSA_of_resolvesId b es hff hfe ih

/-- C6: the reference resolver is the identity on a configuration tree built
only from literal values: mappings without the factory keys, sequences, and
scalars carrying no resolution marker, for every resolution environment. -/
theorem claim_C6_literalIdentity (b : Builder) (es : List (String × RVal))
    (h : LiteralOnly (.vmap es)) :
    replaceStepArguments b es = .ok (.vmap es) := by
  have hr := (literal_resolvesId b _ h).1 es rfl []
  simpa [replaceStepArguments] using hr

/-- C6 (witness): the identity evaluated on a small literal-only tree. -/
theorem claim_C6_literalIdentity_witness :
    replaceStepArguments {} [("x", .vstr "lit"), ("n", .vint 3)] =
      .ok (.vmap [("x", .vstr "lit"), ("n", .vint 3)]) :=
  claim_C6_literalIdentity {} [("x", .vstr "lit"), ("n", .vint 3)]
    (LiteralOnly.vmap _ (by decide) (by decide)
      (by
        intro p hp
        simp only [List.mem_cons, List.mem_singleton, List.not_mem_nil, or_false] at hp
        rcases hp with rfl | rfl
        · exact LiteralOnly.vstr "lit" (by decide)
        · exact LiteralOnly.vint 3))

/-! ## Claim C9: duplicate step names overwrite silently -/

/-- C9: when a step is added whose built name n already has an entry in the
step table, add_step succeeds without a duplicate-name error, the table
afterwards maps n to the newly built step (so the old entry is discarded),
and every other entry is unchanged. The configuration is a fail step with a
marker-free error message. -/
theorem claim_C9_duplicateOverwrite (b : Builder) (n msg : String) (old : RVal)
    (hplain : plainString msg = true)
    (hold : lookupEntry b.steps n = some old) :
    addStep b n [("error_message", .vstr msg)] =
      .ok { b with steps := setEntry b.steps n (builtFailStep n (.vstr msg)) } ∧
    lookupEntry (setEntry b.steps n (builtFailStep n (.vstr msg))) n =
      some (builtFailStep n (.vstr msg)) ∧
    (∀ m, m ≠ n →
      lookupEntry (setEntry b.steps n (builtFailStep n (.vstr msg))) m =
        lookupEntry b.steps m) := by
  have hL : LiteralOnly (.vmap [("error_message", .vstr msg)]) := by
    refine LiteralOnly.vmap _ ?_ ?_ ?_ <;> intro q hq <;>
      simp only [List.mem_singleton] at hq <;> subst hq
    · show ("error_message" : String) ≠ factoryFunctionKey
      decide
    · show ("error_message" : String) ≠ factoryEnumKey
      decide
    · exact LiteralOnly.vstr msg hplain
  have hres : replaceStepArguments b [("error_message", .vstr msg)] =
      .ok (.vmap [("error_message", .vstr msg)]) := by
    have := (literal_resolvesId b _ hL).1 _ rfl []
    simpa [replaceStepArguments] using this
  refine ⟨?_, lookupEntry_setEntry_self _ _ _, fun m hm => lookupEntry_setEntry_ne _ _ _ _ hm⟩
  unfold addStep
  rw [hres]
  rfl

/-- C9 (witness): adding a fail step named s1 over an existing s1 entry. -/
theorem claim_C9_duplicateOverwrite_witness :
    addStep { steps := [("s1", RVal.vint 1)] } "s1" [("error_message", .vstr "boom")] =
      .ok { steps := setEntry [("s1", RVal.vint 1)] "s1"
              (builtFailStep "s1" (.vstr "boom")) } :=
  (claim_C9_duplicateOverwrite { steps := [("s1", RVal.vint 1)] } "s1" "boom"
    (RVal.vint 1) (by decide) rfl).1

/-! ## Claim C2: condition steps consume branch members from the step table -/

theorem plainName_spec (s : String) (h : plainName s = true) :
    (∀ c ∈ s.toList, c ≠ ':') ∧ (∀ c ∈ s.toList, c ≠ '.') := by
  unfold plainName at h
  rw [List.all_eq_true] at h
  constructor <;> intro c hc <;> have hcq := h c hc <;>
    simp only [Bool.and_eq_true, Bool.not_eq_true', decide_eq_false_iff_not] at hcq
  · exact hcq.1
  · exact hcq.2

theorem plainName_plainString (s : String) (h : plainName s = true) :
    plainString s = true := by
  obtain ⟨hc, hd⟩ := plainName_spec s h
  have h1 : paramPfx.toList.isPrefixOf s.toList = false :=
    isPrefixOf_false_of_not_mem (c := ':') (by decide) hc
  have h2 : execPfx.toList.isPrefixOf s.toList = false :=
    isPrefixOf_false_of_not_mem (c := ':') (by decide) hc
  have h3 : propFilePfx.toList.isPrefixOf s.toList = false :=
    isPrefixOf_false_of_not_mem (c := ':') (by decide) hc
  have h4 : splitAtSub propsIdent.toList s.toList = none :=
    splitAtSub_none_of_head_not_mem hd
  unfold plainString startsWithL containsSub
  rw [h1, h2, h3, h4]
  rfl

theorem splitAtSub_props (n1 p : String) (hdot : ∀ c ∈ n1.toList, c ≠ '.') :
    splitAtSub propsIdent.toList (n1 ++ propsIdent ++ p).toList =
      some (n1.toList, p.toList) := by
  have hdec : (n1 ++ propsIdent ++ p).toList =
      n1.toList ++ propsIdent.toList ++ p.toList := by
    show (n1 ++ propsIdent ++ p).data = n1.data ++ propsIdent.data ++ p.data
    rw [String.data_append, String.data_append]
  rw [hdec]
  exact splitAtSub_append hdot

/-- C2: adding a condition-step configuration whose if_steps lists two live
step names pops both from the step table and embeds the removed step objects
as the branch members of the constructed ConditionStep; afterwards a
reference to a consumed name through the name.properties.path form fails
with an unknown-step lookup error, while entries for names not listed (and
not shadowed by the condition step itself) are unchanged. -/
theorem claim_C2_branchConsumption (b : Builder) (cname n1 n2 p : String)
    (s1 s2 : RVal)
    (h1 : plainName n1 = true) (h2 : plainName n2 = true)
    (hp : ∀ c ∈ p.toList, c ≠ ':')
    (hn12 : n1 ≠ n2) (hcn1 : cname ≠ n1) (hcn2 : cname ≠ n2)
    (hnd : (b.steps.map Prod.fst).Nodup)
    (hs1 : lookupEntry b.steps n1 = some s1)
    (hs2 : lookupEntry b.steps n2 = some s2) :
    addStep b cname
        [("conditions", .vlist []), ("if_steps", .vlist [.vstr n1, .vstr n2]),
         ("else_steps", .vlist [])] =
      .ok { b with steps := setEntry (removeEntry (removeEntry b.steps n1) n2) cname
                              (builtConditionStep cname [] [s1, s2] []) } ∧
    lookupEntry (setEntry (removeEntry (removeEntry b.steps n1) n2) cname
        (builtConditionStep cname [] [s1, s2] [])) n1 = none ∧
    lookupEntry (setEntry (removeEntry (removeEntry b.steps n1) n2) cname
        (builtConditionStep cname [] [s1, s2] [])) n2 = none ∧
    (∃ msg, replaceArgument
        { b with steps := setEntry (removeEntry (removeEntry b.steps n1) n2) cname
                            (builtConditionStep cname [] [s1, s2] []) }
        (.vstr (n1 ++ propsIdent ++ p)) = .error msg) ∧
    (∀ m, m ≠ n1 → m ≠ n2 → m ≠ cname →
      lookupEntry (setEntry (removeEntry (removeEntry b.steps n1) n2) cname
        (builtConditionStep cname [] [s1, s2] [])) m = lookupEntry b.steps m) := by
  obtain ⟨hc1, hd1⟩ := plainName_spec n1 h1
  have hlook1 : lookupEntry (setEntry (removeEntry (removeEntry b.steps n1) n2) cname
      (builtConditionStep cname [] [s1, s2] [])) n1 = none := by
    rw [lookupEntry_setEntry_ne _ _ _ _ (fun h => hcn1 h.symm)]
    rw [lookupEntry_removeEntry_ne _ _ _ hn12]
    exact lookupEntry_removeEntry_self _ _ hnd
  have hlook2 : lookupEntry (setEntry (removeEntry (removeEntry b.steps n1) n2) cname
      (builtConditionStep cname [] [s1, s2] [])) n2 = none := by
    rw [lookupEntry_setEntry_ne _ _ _ _ (fun h => hcn2 h.symm)]
    apply lookupEntry_removeEntry_self
    have : ((removeEntry b.steps n1).map Prod.fst).Sublist (b.steps.map Prod.fst) := by
      apply List.Sublist.map
      clear hs1 hs2 hnd hlook1
      induction b.steps with
      | nil => simp [removeEntry]
      | cons q rest ih =>
        obtain ⟨a, w⟩ := q
        by_cases hq : a = n1
        · simp only [removeEntry, if_pos hq]
          exact List.sublist_cons_self _ _
        · simp only [removeEntry, if_neg hq]
          exact List.Sublist.cons₂ _ ih
    exact this.nodup hnd
  refine ⟨?_, hlook1, hlook2, ?_, ?_⟩
  · -- the add_step computation
    have hL : LiteralOnly (.vmap [("conditions", RVal.vlist []),
        ("if_steps", RVal.vlist [RVal.vstr n1, RVal.vstr n2]),
        ("else_steps", RVal.vlist [])]) := by
      refine LiteralOnly.vmap _ ?_ ?_ ?_ <;> intro q hq <;>
        simp only [List.mem_cons, List.mem_singleton, List.not_mem_nil, or_false] at hq <;>
        rcases hq with rfl | rfl | rfl
      · show ("conditions" : String) ≠ factoryFunctionKey; decide
      · show ("if_steps" : String) ≠ factoryFunctionKey; decide
      · show ("else_steps" : String) ≠ factoryFunctionKey; decide
      · show ("conditions" : String) ≠ factoryEnumKey; decide
      · show ("if_steps" : String) ≠ factoryEnumKey; decide
      · show ("else_steps" : String) ≠ factoryEnumKey; decide
      · exact LiteralOnly.vlist _ (by intro x hx; simp at hx)
      · refine LiteralOnly.vlist _ ?_
        intro x hx
        simp only [List.mem_cons, List.mem_singleton, List.not_mem_nil, or_false] at hx
        rcases hx with rfl | rfl
        · exact LiteralOnly.vstr n1 (plainName_plainString n1 h1)
        · exact LiteralOnly.vstr n2 (plainName_plainString n2 h2)
      · exact LiteralOnly.vlist _ (by intro x hx; simp at hx)
    have hres : replaceStepArguments b
        [("conditions", RVal.vlist []),
         ("if_steps", RVal.vlist [RVal.vstr n1, RVal.vstr n2]),
         ("else_steps", RVal.vlist [])] =
        .ok (.vmap [("conditions", RVal.vlist []),
          ("if_steps", RVal.vlist [RVal.vstr n1, RVal.vstr n2]),
          ("else_steps", RVal.vlist [])]) := by
      have := (literal_resolvesId b _ hL).1 _ rfl []
      simpa [replaceStepArguments] using this
    have hs2' : lookupEntry (removeEntry b.steps n1) n2 = some s2 := by
      rw [lookupEntry_removeEntry_ne _ _ _ (fun h => hn12 h.symm)]
      exact hs2
    have hpop : replaceWithStepCollection b.steps [RVal.vstr n1, RVal.vstr n2] =
        .ok ([s1, s2], removeEntry (removeEntry b.steps n1) n2) := by
      unfold replaceWithStepCollection
      dsimp only
      rw [hs1]
      dsimp only
      unfold replaceWithStepCollection
      dsimp only
      rw [hs2']
      rfl
    unfold addStep
    rw [hres]
    simp only [ok_bind]
    rw [show popBranch "if_steps"
        (updateEntries [("conditions", RVal.vlist []),
          ("if_steps", RVal.vlist [RVal.vstr n1, RVal.vstr n2]),
          ("else_steps", RVal.vlist [])]
          [("name", (lookupEntry [("conditions", RVal.vlist []),
             ("if_steps", RVal.vlist [RVal.vstr n1, RVal.vstr n2]),
             ("else_steps", RVal.vlist [])] "name").getD (.vstr cname)),
           ("role", b.role_arn), ("sagemaker_session", b.sagemaker_session),
           ("security_group_ids", .vlist b.security_group_ids),
           ("subnets", .vlist b.subnets)]) b.steps =
        Except.bind (replaceWithStepCollection b.steps [RVal.vstr n1, RVal.vstr n2])
          (fun pr => Except.ok
            ([("conditions", RVal.vlist []), ("if_steps", RVal.vlist pr.1),
              ("else_steps", RVal.vlist []), ("name", RVal.vstr cname),
              ("role", b.role_arn), ("sagemaker_session", b.sagemaker_session),
              ("security_group_ids", RVal.vlist b.security_group_ids),
              ("subnets", RVal.vlist b.subnets)], pr.2)) from rfl]
    rw [hpop]
    simp only [exceptBind_ok, ok_bind]
    rfl
  · -- a later reference to the consumed name n1 fails with unknown-step
    refine ⟨"KeyError: " ++ String.mk n1.toList, ?_⟩
    have hcomb : ∀ c ∈ (n1 ++ propsIdent ++ p).toList, c ≠ ':' := by
      intro c hc
      have hdec : (n1 ++ propsIdent ++ p).toList =
          n1.toList ++ propsIdent.toList ++ p.toList := by
        show (n1 ++ propsIdent ++ p).data = n1.data ++ propsIdent.data ++ p.data
        rw [String.data_append, String.data_append]
      rw [hdec] at hc
      rcases List.mem_append.mp hc with hc' | hc'
      · rcases List.mem_append.mp hc' with hc'' | hc''
        · exact hc1 c hc''
        · intro heq
          subst heq
          exact absurd hc'' (by decide)
      · exact hp c hc'
    have hq1 : startsWithL paramPfx (n1 ++ propsIdent ++ p) = false :=
      isPrefixOf_false_of_not_mem (c := ':') (by decide) hcomb
    have hq2 : startsWithL execPfx (n1 ++ propsIdent ++ p) = false :=
      isPrefixOf_false_of_not_mem (c := ':') (by decide) hcomb
    have hq3 : startsWithL propFilePfx (n1 ++ propsIdent ++ p) = false :=
      isPrefixOf_false_of_not_mem (c := ':') (by decide) hcomb
    unfold replaceArgument
    dsimp only
    rw [hq1]
    simp only [Bool.false_eq_true, if_false]
    rw [hq2]
    simp only [Bool.false_eq_true, if_false]
    rw [hq3]
    simp only [Bool.false_eq_true, if_false]
    rw [splitAtSub_props n1 p hd1]
    dsimp only
    rw [show String.mk n1.toList = n1 from rfl]
    rw [hlook1]
  · intro m hm1 hm2 hmc
    rw [lookupEntry_setEntry_ne _ _ _ _ hmc,
      lookupEntry_removeEntry_ne _ _ _ hm2,
      lookupEntry_removeEntry_ne _ _ _ hm1]

/-- C2 (witness): a condition step consuming steps a and b from a three-step
table; the step c not listed stays, the consumed names are gone, and a
properties reference to a fails. -/
theorem claim_C2_branchConsumption_witness :
    addStep { steps := [("a", RVal.vint 1), ("b", RVal.vint 2), ("c", RVal.vint 3)] }
        "cond"
        [("conditions", .vlist []), ("if_steps", .vlist [.vstr "a", .vstr "b"]),
         ("else_steps", .vlist [])] =
      .ok { steps := setEntry (removeEntry (removeEntry
                        [("a", RVal.vint 1), ("b", RVal.vint 2), ("c", RVal.vint 3)]
                        "a") "b") "cond"
                        (builtConditionStep "cond" [] [RVal.vint 1, RVal.vint 2] []) } :=
  (claim_C2_branchConsumption
    { steps := [("a", RVal.vint 1), ("b", RVal.vint 2), ("c", RVal.vint 3)] }
    "cond" "a" "b" "Outputs" (RVal.vint 1) (RVal.vint 2)
    (by decide) (by decide) (by decide) (by decide) (by decide) (by decide)
    (by decide) rfl rfl).1

end SageRender
